import Mathlib

/-!
Verification of the buildantic OpenAPI operation core: the schema composer
(`OperationDescriptor._analyze_metas`), the parameter encoding engine
(`encode_path_parameter`, `encode_query_parameter`), the formatters
(`format_path`, `format_query`) and the request-model builder
(`OperationDescriptor._build_request_model`).

The embedding models JSON-compatible Python values as `JValue`, association
lists (Python dicts, which preserve insertion order) as `List (String × α)`,
and fallible Python code (raising `ValueError` / `KeyError`) as
`Except String α`.
-/

/-- JSON-compatible Python value: the values that flow through the encoders
and schemas (floats are outside the modelled input space). -/
inductive JValue where
  | str (s : String)
  | int (n : Int)
  | bool (b : Bool)
  | null
  | arr (xs : List JValue)
  | obj (kvs : List (String × JValue))

/-- Python truthiness of a value (used for `if meta.schema_:`-style tests). -/
def jTruthy : JValue → Bool
  | .str s => s ≠ ""
  | .int n => n ≠ 0
  | .bool b => b
  | .null => false
  | .arr xs => ¬ xs.isEmpty
  | .obj kvs => ¬ kvs.isEmpty

/-- Python `sep.join(xs)`. -/
def pyJoin (sep : String) : List String → String
  | [] => ""
  | [x] => x
  | x :: y :: rest => x ++ sep ++ pyJoin sep (y :: rest)

/-- Concatenation of a list of strings (used to state per-segment encodings). -/
def strConcat : List String → String
  | [] => ""
  | x :: rest => x ++ strConcat rest

/-- Escape a character for JSON string output (backslash and double quote;
control characters do not occur in the modelled inputs). -/
def jsonEscChar (c : Char) : String :=
  if c = '\\' then "\\\\"
  else if c = '"' then "\\\""
  else String.singleton c

/-- Escape a string for JSON output. -/
def jsonEsc (s : String) : String := strConcat (s.data.map jsonEscChar)

mutual

/-- Compact JSON serialization, as produced by `pydantic_core.to_json`
(separators without spaces). -/
def jsonStr : JValue → String
  | .str s => "\"" ++ jsonEsc s ++ "\""
  | .int n => toString n
  | .bool b => if b then "true" else "false"
  | .null => "null"
  | .arr xs => "[" ++ pyJoin "," (jsonStrList xs) ++ "]"
  | .obj kvs => "\x7b" ++ pyJoin "," (jsonStrObj kvs) ++ "\x7d"

def jsonStrList : List JValue → List String
  | [] => []
  | x :: xs => jsonStr x :: jsonStrList xs

def jsonStrObj : List (String × JValue) → List String
  | [] => []
  | (k, v) :: rest => ("\"" ++ jsonEsc k ++ "\":" ++ jsonStr v) :: jsonStrObj rest

end

/-- Python `repr` of a string: quote with apostrophes, or with double quotes
when the string contains an apostrophe but no double quote. -/
def pyStrRepr (s : String) : String :=
  let apos := Char.ofNat 39
  if s.data.contains apos ∧ ¬ s.data.contains '"' then
    "\"" ++ strConcat (s.data.map (fun c => if c = '\\' then "\\\\" else String.singleton c)) ++ "\""
  else
    String.singleton apos ++
      strConcat (s.data.map (fun c =>
        if c = '\\' then "\\\\"
        else if c = apos then "\\" ++ String.singleton apos
        else String.singleton c)) ++
      String.singleton apos

mutual

/-- Python `repr` of a value (what `str` delegates to for lists and dicts). -/
def pyReprV : JValue → String
  | .str s => pyStrRepr s
  | .int n => toString n
  | .bool b => if b then "True" else "False"
  | .null => "None"
  | .arr xs => "[" ++ pyJoin ", " (pyReprList xs) ++ "]"
  | .obj kvs => "\x7b" ++ pyJoin ", " (pyReprObj kvs) ++ "\x7d"

def pyReprList : List JValue → List String
  | [] => []
  | x :: xs => pyReprV x :: pyReprList xs

def pyReprObj : List (String × JValue) → List String
  | [] => []
  | (k, v) :: rest => (pyStrRepr k ++ ": " ++ pyReprV v) :: pyReprObj rest

end

/-- Python `str(v)`: the string itself for strings, `True`/`False`/`None`
literals, decimal integers, and `repr`-based text for lists and dicts. -/
def pyStr : JValue → String
  | .str s => s
  | .int n => toString n
  | .bool b => if b then "True" else "False"
  | .null => "None"
  | .arr xs => pyReprV (.arr xs)
  | .obj kvs => pyReprV (.obj kvs)

/-- The `to_str` lambda of `utils.py`: compact JSON for lists and dicts,
Python `str` for everything else. -/
def toStr : JValue → String
  | .arr xs => jsonStr (.arr xs)
  | .obj kvs => jsonStr (.obj kvs)
  | v => pyStr v

/-- Characters `urllib.parse.quote` never escapes with the default
`safe="/"`: ASCII alphanumerics, `_.-~`, and the slash. -/
def quoteSafeChar (c : Char) : Bool :=
  c.toNat < 128 &&
    (c.isAlphanum || c = '_' || c = '.' || c = '-' || c = '~' || c = '/')

/-- Uppercase hex digit (indices above 15 do not occur). -/
def hexDigit (n : Nat) : Char := "0123456789ABCDEF".data.getD n (Char.ofNat 48)

/-- Percent-escape of one byte, `%XX` with uppercase hex. -/
def pctByte (b : UInt8) : String :=
  "%" ++ String.singleton (hexDigit (b.toNat / 16)) ++ String.singleton (hexDigit (b.toNat % 16))

/-- Encoding of one character by `urllib.parse.quote`: kept verbatim when
safe, otherwise each UTF-8 byte is percent-escaped. -/
def quoteChar (c : Char) : String :=
  if quoteSafeChar c then String.singleton c
  else strConcat ((String.utf8EncodeChar c).map pctByte)

/-- The `urllib.parse.quote` function with its default `safe="/"`. -/
def pyQuote (s : String) : String := strConcat (s.data.map quoteChar)

/-! ## Path encoding engine (`utils.py`: `encode_path_parameter`) -/

/-- The `encode_array` closure of `encode_path_parameter`. Note that the
matrix/explode branch renders elements with `str` (an f-string), while the
other branches use `to_str`. -/
def encodeArrayP (name style : String) (explode : Bool) (xs : List JValue) :
    Except String String :=
  if style = "simple" then .ok (pyJoin "," (xs.map toStr))
  else if style = "label" then
    .ok (if explode then pyJoin "." (xs.map toStr) else pyJoin "," (xs.map toStr))
  else if style = "matrix" then
    .ok (if explode then pyJoin ";" (xs.map (fun v => name ++ "=" ++ pyStr v))
         else name ++ "=" ++ pyJoin "," (xs.map toStr))
  else .error ("Unsupported path encoding style: " ++ style)

/-- The `encode_object` closure of `encode_path_parameter` (its inner
`_join(sep, kv_sep)` helper inlined). -/
def encodeObjectP (name style : String) (explode : Bool)
    (kvs : List (String × JValue)) : Except String String :=
  let join := fun (sep kvSep : String) =>
    pyJoin sep (kvs.map (fun kv => kv.1 ++ kvSep ++ toStr kv.2))
  if style = "simple" then .ok (if explode then join "," "=" else join "," ",")
  else if style = "label" then .ok (if explode then join "." "=" else join "," ",")
  else if style = "matrix" then
    .ok (if explode then join ";" "=" else name ++ "=" ++ join "," ",")
  else .error ("Unsupported path encoding style: " ++ style)

/-- Body of `encode_path_parameter` after style/explode defaulting. -/
def corePath (name : String) (value : JValue) (style : String) (explode : Bool) :
    Except String String := do
  let encoded ←
    match value with
    | .arr xs => encodeArrayP name style explode xs
    | .obj kvs => encodeObjectP name style explode kvs
    | v => .ok (if style ≠ "matrix" then toStr v else name ++ "=" ++ toStr v)
  if style = "simple" then .ok encoded
  else if style = "label" then .ok ("." ++ encoded)
  else if style = "matrix" then .ok (";" ++ encoded)
  else .error ("Unsupported path encoding style: " ++ style)

/-- The `encode_path_parameter` function: `style, explode = style or
"simple", explode or False` (Python truthiness: `None` and the empty string
both fall back to the default). -/
def encode_path_parameter (name : String) (value : JValue)
    (style? : Option String) (explode? : Option Bool) : Except String String :=
  let style := match style? with
    | none => "simple"
    | some s => if s = "" then "simple" else s
  let explode := match explode? with
    | none => false
    | some b => b
  corePath name value style explode

/-! ## Query encoding engine (`utils.py`: `encode_query_parameter`) -/

/-- Body of `encode_query_parameter` after style/explode defaulting; the
local `encode_value` is `quote(str(v))`. -/
def coreQuery (name : String) (value : JValue) (style : String) (explode : Bool) :
    Except String String :=
  let encV := fun v => pyQuote (pyStr v)
  if style = "form" then
    match value with
    | .arr xs =>
      if explode then .ok (pyJoin "&" (xs.map (fun v => name ++ "=" ++ encV v)))
      else .ok (name ++ "=" ++ pyJoin "," (xs.map encV))
    | .obj kvs =>
      if explode then .ok (pyJoin "&" (kvs.map (fun kv => kv.1 ++ "=" ++ encV kv.2)))
      else .ok (name ++ "=" ++ pyJoin "," (kvs.map (fun kv => kv.1 ++ "," ++ encV kv.2)))
    | v => .ok (name ++ "=" ++ encV v)
  else if style = "spaceDelimited" ∨ style = "pipeDelimited" then
    match value with
    | .arr xs =>
      if explode then .ok (pyJoin "&" (xs.map (fun v => name ++ "=" ++ encV v)))
      else
        let delim := if style = "spaceDelimited" then "%20" else "|"
        .ok (name ++ "=" ++ pyJoin delim (xs.map encV))
    | _ => .error (style ++ " style only supports array values")
  else if style = "deepObject" then
    match value with
    | .obj kvs =>
      if explode then
        .ok (pyJoin "&" (kvs.map (fun kv => name ++ "[" ++ pyQuote kv.1 ++ "]=" ++ encV kv.2)))
      else .error "deepObject style only supports object values with explode=True"
    | _ => .error "deepObject style only supports object values with explode=True"
  else .error ("Unsupported query encoding style: " ++ style)

/-- The `encode_query_parameter` function: `style, explode = style or
"form", True if explode is None else explode`. -/
def encode_query_parameter (name : String) (value : JValue)
    (style? : Option String) (explode? : Option Bool) : Except String String :=
  let style := match style? with
    | none => "form"
    | some s => if s = "" then "form" else s
  let explode := match explode? with
    | none => true
    | some b => b
  coreQuery name value style explode

/-- Whether an `Except` result is an error (a raised Python exception). -/
def isErr {α : Type} : Except String α → Bool
  | .error _ => true
  | .ok _ => false

/-- Whether a value is a Python list. -/
def isArrV : JValue → Bool
  | .arr _ => true
  | _ => false

/-- Whether a value is a Python dict. -/
def isObjV : JValue → Bool
  | .obj _ => true
  | _ => false

/-! ## Association lists (Python dicts preserve insertion order) -/

/-- Lookup in an association list (first match; keys are unique in every
dict produced by the modelled code). -/
def alookup {α : Type} : List (String × α) → String → Option α
  | [], _ => none
  | (k, v) :: rest, k2 => if k = k2 then some v else alookup rest k2

/-- Python `d[k] = v`: update in place if the key exists, else append. -/
def aset {α : Type} : List (String × α) → String → α → List (String × α)
  | [], k, v => [(k, v)]
  | (k2, v2) :: rest, k, v =>
    if k2 = k then (k, v) :: rest else (k2, v2) :: aset rest k v

/-- Keys of an association list, in order. -/
def keys {α : Type} (l : List (String × α)) : List String := l.map Prod.fst

/-! ## Python `str.format_map` (used by `format_path`)

Modelled as a character state machine over the template: `\x7bname\x7d`
substitutes the binding of `name`, doubled braces escape, a stray or
unterminated brace is a `ValueError`, and a placeholder whose name has no
binding is the `KeyError` that the spec calls `MissingPathParameter`.
(Conversion/format-spec suffixes such as `!r` or `:>8` do not occur in path
templates and are outside the modelled subset.) -/

/-- Scanner state for `str.format_map`: scanning literal text, just after an
opening brace, inside a field name (reversed accumulator), or just after a
closing brace. -/
inductive FmtMode where
  | text
  | open0
  | name (acc : List Char)
  | close0

/-- State machine for `str.format_map` over the template's characters. -/
def fmGo (m : List (String × String)) (mode : FmtMode) :
    List Char → Except String String
  | [] =>
    match mode with
    | .text => .ok ""
    | .open0 => .error "Single opening brace encountered"
    | .name _ => .error "Single opening brace encountered"
    | .close0 => .error "Single closing brace encountered"
  | c :: rest =>
    match mode with
    | .text =>
      if c = Char.ofNat 123 then fmGo m .open0 rest
      else if c = Char.ofNat 125 then fmGo m .close0 rest
      else (fmGo m .text rest).map (fun s => String.singleton c ++ s)
    | .open0 =>
      if c = Char.ofNat 123 then (fmGo m .text rest).map (fun s => "\x7b" ++ s)
      else if c = Char.ofNat 125 then .error "empty placeholder in template"
      else fmGo m (.name [c]) rest
    | .name acc =>
      if c = Char.ofNat 125 then
        match alookup m (String.mk acc.reverse) with
        | some v => (fmGo m .text rest).map (fun s => v ++ s)
        | none => .error ("MissingPathParameter: " ++ String.mk acc.reverse)
      else if c = Char.ofNat 123 then
        .error "unexpected opening brace in field name"
      else fmGo m (.name (c :: acc)) rest
    | .close0 =>
      if c = Char.ofNat 125 then (fmGo m .text rest).map (fun s => "\x7d" ++ s)
      else .error "Single closing brace encountered"

/-- Python `template.format_map(m)`. -/
def formatMap (template : String) (m : List (String × String)) :
    Except String String := fmGo m .text template.data

/-- The placeholder names a template references, in order (same traversal as
`fmGo`; collection stops where `format_map` would raise a brace error). -/
def phGo (mode : FmtMode) : List Char → List String
  | [] => []
  | c :: rest =>
    match mode with
    | .text =>
      if c = Char.ofNat 123 then phGo .open0 rest
      else if c = Char.ofNat 125 then phGo .close0 rest
      else phGo .text rest
    | .open0 =>
      if c = Char.ofNat 123 then phGo .text rest
      else if c = Char.ofNat 125 then []
      else phGo (.name [c]) rest
    | .name acc =>
      if c = Char.ofNat 125 then String.mk acc.reverse :: phGo .text rest
      else if c = Char.ofNat 123 then []
      else phGo (.name (c :: acc)) rest
    | .close0 =>
      if c = Char.ofNat 125 then phGo .text rest
      else []

/-- Placeholders referenced by a template string. -/
def placeholders (s : String) : List String := phGo .text s.data

/-- Whether the template is brace-well-formed (so `format_map` can only fail
with a missing-parameter error). -/
def tplGo (mode : FmtMode) : List Char → Bool
  | [] =>
    match mode with
    | .text => true
    | _ => false
  | c :: rest =>
    match mode with
    | .text =>
      if c = Char.ofNat 123 then tplGo .open0 rest
      else if c = Char.ofNat 125 then tplGo .close0 rest
      else tplGo .text rest
    | .open0 =>
      if c = Char.ofNat 123 then tplGo .text rest
      else if c = Char.ofNat 125 then false
      else tplGo (.name [c]) rest
    | .name acc =>
      if c = Char.ofNat 125 then tplGo .text rest
      else if c = Char.ofNat 123 then false
      else tplGo (.name (c :: acc)) rest
    | .close0 =>
      if c = Char.ofNat 125 then tplGo .text rest
      else false

/-- Whether a template string is brace-well-formed. -/
def tplWellFormed (s : String) : Bool := tplGo .text s.data

/-! ## Typed encoding metadata (`types.py`) and the formatters -/

/-- Path encoding styles (`PathEncodingStyle` literal type). -/
inductive PathStyle where
  | simple
  | label
  | matrix

/-- Query encoding styles (`QueryEncodingStyle` literal type). -/
inductive QueryStyle where
  | form
  | pipeDelimited
  | spaceDelimited
  | deepObject

/-- The literal string a `PathStyle` stands for. -/
def pathStyleStr : PathStyle → String
  | .simple => "simple"
  | .label => "label"
  | .matrix => "matrix"

/-- The literal string a `QueryStyle` stands for. -/
def queryStyleStr : QueryStyle → String
  | .form => "form"
  | .pipeDelimited => "pipeDelimited"
  | .spaceDelimited => "spaceDelimited"
  | .deepObject => "deepObject"

/-- `EncodingMeta` of `types.py`: a validated style/explode pair. -/
structure EncodingMeta (σ : Type) where
  style : σ
  explode : Bool

/-- `EncodableInputMeta` of `types.py`: a schema fragment plus per-parameter
encodings (only path and query locations carry encodings). -/
structure EncodableInputMeta (σ : Type) where
  schema_ : JValue
  encodings : List (String × EncodingMeta σ) := []

/-- `InputMeta` of `types.py`: a bare schema fragment. -/
structure InputMeta where
  schema_ : JValue

/-- The `formatted_map` loop of `format_path`: resolve each parameter's
style/explode from the encodings (or leave both `None`), encode it, and
store it under the parameter name. -/
def buildFormattedMap (encodings : List (String × EncodingMeta PathStyle)) :
    List (String × JValue) → List (String × String) →
    Except String (List (String × String))
  | [], acc => .ok acc
  | (n, v) :: rest, acc => do
    let styleExplode : Option String × Option Bool :=
      match alookup encodings n with
      | some em => (some (pathStyleStr em.style), some em.explode)
      | none => (none, none)
    let e ← encode_path_parameter n v styleExplode.1 styleExplode.2
    buildFormattedMap encodings rest (aset acc n e)

/-- The `format_path` function of `utils.py`. -/
def format_path (path : String) (params : List (String × JValue))
    (encodings : List (String × EncodingMeta PathStyle)) : Except String String := do
  let fm ← buildFormattedMap encodings params []
  formatMap path fm

/-- The query-parts loop of `format_query`: encode every parameter in order
(a raised encoding error propagates immediately, as in the Python loop). -/
def fqGo (encodings : List (String × EncodingMeta QueryStyle)) :
    List (String × JValue) → Except String (List String)
  | [] => .ok []
  | (n, v) :: rest => do
    let styleExplode : Option String × Option Bool :=
      match alookup encodings n with
      | some em => (some (queryStyleStr em.style), some em.explode)
      | none => (none, none)
    let s ← encode_query_parameter n v styleExplode.1 styleExplode.2
    let restParts ← fqGo encodings rest
    .ok (s :: restParts)

/-- The `format_query` function of `utils.py`: encode every parameter and
join all fragments (empty ones included) with `&`. -/
def format_query (params : List (String × JValue))
    (encodings : List (String × EncodingMeta QueryStyle)) : Except String String :=
  (fqGo encodings params).map (pyJoin "&")

/-! ## Schema composer (`OperationDescriptor._analyze_metas`)

The descriptor's `self.__metas` dict always holds exactly the five reserved
location keys (mapped to the operation's per-location metas, possibly
`None`), so `key in self.__metas` is a membership test against the five
reserved keys, and the iteration order of `self.__metas.items()` is the
fixed composition order path, query, header, cookie, body. -/

/-- The five reserved location keys, in composition order. -/
def reservedKeys : List String :=
  ["requestPath", "requestQuery", "requestHeader", "requestCookie", "requestBody"]

/-- Mutable state of `_analyze_metas`: the claimed-key map, the accumulated
properties, the required list, and the set of nested locations (modelled as
an insertion-ordered duplicate-free list; the pass-2 effects per location
are disjoint, so the Python set's iteration order is immaterial). -/
structure ComposeState where
  keyToLoc : List (String × String)
  properties : List (String × JValue)
  required : List JValue
  nestedLocs : List String

/-- Initial composer state. -/
def initState : ComposeState := ⟨[], [], [], []⟩

/-- Python `set.add`. -/
def addNested (l : List String) (loc : String) : List String :=
  if loc ∈ l then l else l ++ [loc]

/-- `meta.schema_.get("properties", \x7b\x7d)`: the fragment's property
list. A non-dict `properties` value would crash the Python iteration and is
outside the modelled input space. -/
def getProps (s : JValue) : List (String × JValue) :=
  match s with
  | .obj kvs =>
    match alookup kvs "properties" with
    | some (.obj ps) => ps
    | _ => []
  | _ => []

/-- `meta.schema_.get("required", [])`: the fragment's own required list. A
non-list value (which Python would iterate element-wise) is outside the
modelled input space. -/
def getRequired (s : JValue) : List JValue :=
  match s with
  | .obj kvs =>
    match alookup kvs "required" with
    | some (.arr xs) => xs
    | _ => []
  | _ => []

/-- The flattening loop of `add_properties` for a non-body location. On the
first colliding key it marks the location nested and returns `false`,
leaving the partially flattened keys in place (they are retracted by pass
2). A key present in `properties` but absent from `key_to_loc` would be a
Python `KeyError`; it is unreachable (such keys are reserved and caught by
the first test) and modelled as the abort branch. -/
def addPropsGo (loc : String) :
    List (String × JValue) → ComposeState → Bool × ComposeState
  | [], st => (true, st)
  | (key, value) :: rest, st =>
    if key ∈ reservedKeys then
      (false, { st with nestedLocs := addNested st.nestedLocs loc })
    else if (alookup st.properties key).isSome then
      if alookup st.keyToLoc key ≠ some loc then
        (false, { st with nestedLocs := addNested st.nestedLocs loc })
      else addPropsGo loc rest st
    else
      addPropsGo loc rest
        { st with
          properties := aset st.properties key value
          keyToLoc := aset st.keyToLoc key loc }

/-- The `add_properties` closure of `_analyze_metas`: `requestBody` is
always wrapped as a nested object property; other locations are flattened
key by key. -/
def addProperties (props : List (String × JValue)) (loc : String)
    (st : ComposeState) : Bool × ComposeState :=
  if loc = "requestBody" then
    (true,
      { st with
        properties := aset st.properties loc
          (.obj [("type", .str "object"), ("properties", .obj props)])
        nestedLocs := addNested st.nestedLocs loc })
  else addPropsGo loc props st

/-- One iteration of the first pass of `_analyze_metas` (one location). -/
def pass1Step (st : ComposeState) (loc : String) (meta : Option JValue) :
    ComposeState :=
  match meta with
  | none => st
  | some s =>
    if jTruthy s then
      let res := addProperties (getProps s) loc st
      if res.1 then
        if loc = "requestBody" then
          { res.2 with required := res.2.required ++ [.str loc] }
        else
          { res.2 with required := res.2.required ++ getRequired s }
      else
        { res.2 with
          properties := aset res.2.properties loc s
          required := res.2.required ++ [.str loc] }
    else st

/-- First pass of `_analyze_metas` over a list of locations. -/
def pass1 (l : List (String × Option JValue)) (st : ComposeState) : ComposeState :=
  l.foldl (fun s p => pass1Step s p.1 p.2) st

/-- One iteration of the nested-location pass of `_analyze_metas`:
`requestBody` is skipped, a missing reserved property is inserted (with the
location appended to required), and every previously flattened key of the
location is removed from both `properties` and `key_to_loc`. -/
def pass2Step (metas : List (String × Option JValue)) (st : ComposeState)
    (loc : String) : ComposeState :=
  if loc = "requestBody" then st
  else
    match alookup metas loc with
    | some (some s) =>
      let st1 :=
        if (alookup st.properties loc).isSome then st
        else
          { st with
            properties := aset st.properties loc s
            required := st.required ++ [.str loc] }
      let ks := st1.keyToLoc.filterMap
        (fun kv => if kv.2 = loc then some kv.1 else none)
      { st1 with
        properties := st1.properties.filter (fun kv => ¬ kv.1 ∈ ks)
        keyToLoc := st1.keyToLoc.filter (fun kv => ¬ kv.1 ∈ ks) }
    | _ => st

/-- The five per-location metas of an operation descriptor, each the
location's schema fragment when the meta is present. -/
structure LocMetas where
  pathMeta : Option JValue
  queryMeta : Option JValue
  headerMeta : Option JValue
  cookieMeta : Option JValue
  bodyMeta : Option JValue

/-- `self.__metas.items()`: the composition order path, query, header,
cookie, body under their reserved keys. -/
def metaList (m : LocMetas) : List (String × Option JValue) :=
  [("requestPath", m.pathMeta), ("requestQuery", m.queryMeta),
   ("requestHeader", m.headerMeta), ("requestCookie", m.cookieMeta),
   ("requestBody", m.bodyMeta)]

/-- The body of `_analyze_metas` over an arbitrary ordered location list:
the first pass in list order, then the nested-location pass. -/
def composeAll (metas : List (String × Option JValue)) : ComposeState :=
  let st := pass1 metas initState
  st.nestedLocs.foldl (pass2Step metas) st

/-- `OperationDescriptor._analyze_metas`: `composeAll` over the five
locations in composition order. -/
def analyzeMetas (m : LocMetas) : ComposeState := composeAll (metaList m)

/-- The composer state just before a given location's first-pass step. -/
def stBefore (m : LocMetas) (loc : String) : ComposeState :=
  pass1 ((metaList m).takeWhile (fun p => p.1 ≠ loc)) initState

/-- Duplicate-freeness as a boolean. -/
def nodupB : List String → Bool
  | [] => true
  | x :: xs => ¬ xs.contains x && nodupB xs

/-- The disjoint-partition guarantee of the composed schema: no duplicate
property names, no key claimed by two locations, and every property key
owned by exactly one location — either a non-reserved flattened key
recorded in the key-location map, or a reserved key of a nested location
(never both). -/
def partitionOk (st : ComposeState) : Bool :=
  nodupB (keys st.properties) && nodupB (keys st.keyToLoc) &&
  st.properties.all (fun kv =>
    (reservedKeys.contains kv.1 && st.nestedLocs.contains kv.1 &&
      ¬ (keys st.keyToLoc).contains kv.1) ||
    (¬ reservedKeys.contains kv.1 && (keys st.keyToLoc).contains kv.1)) &&
  st.keyToLoc.all (fun kv => (keys st.properties).contains kv.1)

/-! ## Operation, request model and `_build_request_model` -/

/-- `Operation` of `types.py` (the method is one of the seven literals;
its value does not affect the modelled logic). -/
structure Operation where
  id : String
  path : String
  method : String
  description : Option String
  path_meta : Option (EncodableInputMeta PathStyle)
  query_meta : Option (EncodableInputMeta QueryStyle)
  header_meta : Option InputMeta
  cookie_meta : Option InputMeta
  body_meta : Option InputMeta
  body_required : Bool := false

/-- The `LocMetas` view of an operation (what `self.__metas` holds). -/
def opMetas (op : Operation) : LocMetas :=
  { pathMeta := op.path_meta.map (fun m => m.schema_)
    queryMeta := op.query_meta.map (fun m => m.schema_)
    headerMeta := op.header_meta.map (fun m => m.schema_)
    cookieMeta := op.cookie_meta.map (fun m => m.schema_)
    bodyMeta := op.body_meta.map (fun m => m.schema_) }

/-- `RequestModel` of `types.py`. -/
structure RequestModel where
  path : String
  method : String
  queries : Option (List (String × JValue)) := none
  encoded_query : Option String := none
  headers : Option (List (String × JValue)) := none
  cookies : Option (List (String × JValue)) := none
  body : Option (List (String × JValue)) := none

/-- `self.ref.path_meta.encodings if self.ref.path_meta else \x7b\x7d`. -/
def pathEncodingsOf (op : Operation) : List (String × EncodingMeta PathStyle) :=
  match op.path_meta with
  | some m => m.encodings
  | none => []

/-- `self.ref.query_meta.encodings if self.ref.query_meta else \x7b\x7d`. -/
def queryEncodingsOf (op : Operation) : List (String × EncodingMeta QueryStyle) :=
  match op.query_meta with
  | some m => m.encodings
  | none => []

/-- Merge a validated reserved-key value into its bucket
(`params[key].update(value)`; the validated value is object-typed, anything
else would be a Python `TypeError` and is outside the modelled inputs). -/
def bucketMerge (params : List (String × List (String × JValue)))
    (key : String) (v : JValue) : List (String × List (String × JValue)) :=
  match v with
  | .obj kvs =>
    aset params key (kvs.foldl (fun b kv => aset b kv.1 kv.2)
      ((alookup params key).getD []))
  | _ => params

/-- The bucket-distribution loop of `_build_request_model`: reserved keys
merge into their own bucket, other keys are routed through the
key-location map, and unmapped keys are silently dropped. -/
def distribute (keyToLoc : List (String × String)) :
    List (String × JValue) → List (String × List (String × JValue)) →
    List (String × List (String × JValue))
  | [], params => params
  | (key, v) :: rest, params =>
    if key ∈ reservedKeys then distribute keyToLoc rest (bucketMerge params key v)
    else
      match alookup keyToLoc key with
      | some loc =>
        distribute keyToLoc rest
          (aset params loc (aset ((alookup params loc).getD []) key v))
      | none => distribute keyToLoc rest params

/-- A location's bucket (`params[loc]`, defaulting to the empty dict). -/
def getBucket (params : List (String × List (String × JValue)))
    (loc : String) : List (String × JValue) := (alookup params loc).getD []

/-- `OperationDescriptor._build_request_model`: distribute the validated
object into per-location buckets, render the path (only when the path
bucket is non-empty) and the query (only when the query bucket is
non-empty), and copy the remaining buckets verbatim (empty means absent). -/
def buildRequestModel (op : Operation) (keyToLoc : List (String × String))
    (validatedObj : List (String × JValue)) : Except String RequestModel := do
  let params := distribute keyToLoc validatedObj []
  let pathParams := getBucket params "requestPath"
  let path ←
    if pathParams.isEmpty then .ok op.path
    else format_path op.path pathParams (pathEncodingsOf op)
  let queryParams := getBucket params "requestQuery"
  let encodedQuery ←
    if queryParams.isEmpty then .ok (none : Option String)
    else (format_query queryParams (queryEncodingsOf op)).map some
  let headerParams := getBucket params "requestHeader"
  let cookieParams := getBucket params "requestCookie"
  let bodyParams := getBucket params "requestBody"
  .ok
    { path := path
      method := op.method
      queries := if queryParams.isEmpty then none else some queryParams
      encoded_query := encodedQuery
      headers := if headerParams.isEmpty then none else some headerParams
      cookies := if cookieParams.isEmpty then none else some cookieParams
      body := if bodyParams.isEmpty then none else some bodyParams }










/-! ## Definitions used to state the claims -/

/-- Characters that may appear in `urllib.parse.quote` output: RFC 3986
unreserved characters, the percent sign of an escape, and the slash that
the default `safe="/"` leaves intact. -/
def okQuoteChar (c : Char) : Bool :=
  c.isAlphanum || c = '-' || c = '.' || c = '_' || c = '~' || c = '/' || c = '%'

/-- The RFC 3986 reserved characters (gen-delims and sub-delims). -/
def rfc3986ReservedChars : List Char :=
  [':', '/', '?', '#', '[', ']', '@', '!', '$', '&', Char.ofNat 39,
   '(', ')', '*', '+', ',', ';', '=']

/-- Splitting a character list on commas (Python `s.split(",")`). -/
def splitCommasAux (cur : List Char) : List Char → List (List Char)
  | [] => [cur.reverse]
  | c :: rest =>
    if c = ',' then cur.reverse :: splitCommasAux [] rest
    else splitCommasAux (c :: cur) rest

/-- Python `s.split(",")`: parse a path segment by commas. -/
def splitCommas (s : String) : List String :=
  (splitCommasAux [] s.data).map String.mk

/-- One parameter of `format_query`, encoded with the style/explode resolved
from the encodings map (absent entries leave both unset, so
`encode_query_parameter` falls back to form/explode=true). -/
def encodeResolvedQuery (encodings : List (String × EncodingMeta QueryStyle))
    (p : String × JValue) : Except String String :=
  match alookup encodings p.1 with
  | some em => encode_query_parameter p.1 p.2 (some (queryStyleStr em.style)) (some em.explode)
  | none => encode_query_parameter p.1 p.2 none none

/-- Invariant of the composer state: property keys and claimed keys are
duplicate-free, claimed keys are non-reserved property keys that never
belong to the body location, every property key is reserved-and-nested or
claimed, and nested locations are reserved. -/
structure StInv (st : ComposeState) : Prop where
  nodupProps : (keys st.properties).Nodup
  nodupK2L : (keys st.keyToLoc).Nodup
  k2lNotReserved : ∀ kv ∈ st.keyToLoc, ¬ kv.1 ∈ reservedKeys
  k2lInProps : ∀ kv ∈ st.keyToLoc, (alookup st.properties kv.1).isSome = true
  propsOwned : ∀ kv ∈ st.properties,
    kv.1 ∈ reservedKeys ∨ (alookup st.keyToLoc kv.1).isSome = true
  propsReservedNested : ∀ kv ∈ st.properties,
    kv.1 ∈ reservedKeys → kv.1 ∈ st.nestedLocs
  nestedReserved : ∀ l ∈ st.nestedLocs, l ∈ reservedKeys
  k2lNotBody : ∀ kv ∈ st.keyToLoc, kv.2 ≠ "requestBody"

/-! ## Concrete fixtures for witnesses and counterexamples -/

/-- An operation whose template references `userId` but which declares no
parameters at all (every bucket of every validated object is empty). -/
def opNoParams : Operation :=
  { id := "getUser", path := "/users/\x7buserId\x7d", method := "get",
    description := none, path_meta := none, query_meta := none,
    header_meta := none, cookie_meta := none, body_meta := none }

/-- An operation with two path placeholders but only one declared path
parameter. -/
def opTwoPh : Operation :=
  { id := "getItem", path := "/a/\x7bx\x7d/\x7by\x7d", method := "get",
    description := none,
    path_meta := some { schema_ := .obj [("properties", .obj [("x", .obj [])])] },
    query_meta := none, header_meta := none, cookie_meta := none,
    body_meta := none }

/-- An operation whose single query parameter is declared with the
(always-failing) encoding combination deepObject with explode=false. -/
def opQDeep : Operation :=
  { id := "search", path := "/search", method := "get", description := none,
    path_meta := none,
    query_meta := some
      { schema_ := .obj [("properties", .obj [("filter", .obj [])])]
        encodings := [("filter", { style := .deepObject, explode := false })] },
    header_meta := none, cookie_meta := none, body_meta := none }

/-- An operation with no metadata and a placeholder-free path. -/
def opEmpty : Operation :=
  { id := "ping", path := "/ping", method := "get", description := none,
    path_meta := none, query_meta := none, header_meta := none,
    cookie_meta := none, body_meta := none }

/-- Location metas where the query location reuses the property name `id`
already claimed by the path location. -/
def mColl : LocMetas :=
  { pathMeta := some (.obj [("properties", .obj [("id", .obj [])])])
    queryMeta := some (.obj [("properties", .obj [("id", .obj [])])])
    headerMeta := none, cookieMeta := none, bodyMeta := none }

/-- Location metas with only a body, whose sub-properties include a name
equal to a reserved location key. -/
def mBody : LocMetas :=
  { pathMeta := none, queryMeta := none, headerMeta := none, cookieMeta := none
    bodyMeta := some (.obj [("properties",
      .obj [("name", .obj []), ("requestPath", .obj [])])]) }

/-! # Theorems

Association-list lemmas used throughout (Python dict semantics). -/

theorem alookup_aset_self {α : Type} (l : List (String × α)) (k : String) (v : α) :
    alookup (aset l k v) k = some v := by
  induction l with
  | nil => simp [aset, alookup]
  | cons hd tl ih =>
    obtain ⟨k2, v2⟩ := hd
    by_cases h : k2 = k
    · simp [aset, h, alookup]
    · simp [aset, h, alookup, ih]

theorem alookup_aset_ne {α : Type} (l : List (String × α)) (k k2 : String) (v : α)
    (h : k ≠ k2) : alookup (aset l k v) k2 = alookup l k2 := by
  induction l with
  | nil => simp [aset, alookup, h]
  | cons hd tl ih =>
    obtain ⟨k3, v3⟩ := hd
    by_cases h2 : k3 = k
    · subst h2; simp [aset, alookup, h]
    · simp [aset, h2, alookup, ih]

theorem alookup_isSome_iff {α : Type} (l : List (String × α)) (k : String) :
    (alookup l k).isSome = true ↔ k ∈ keys l := by
  induction l with
  | nil => simp [alookup, keys]
  | cons hd tl ih =>
    obtain ⟨k2, v2⟩ := hd
    by_cases h : k2 = k
    · simp [alookup, h, keys]
    · simp only [alookup, h, if_false, keys, List.map_cons, List.mem_cons, ih, keys]
      constructor
      · intro hm; exact Or.inr hm
      · rintro (rfl | hm)
        · exact absurd rfl h
        · exact hm

theorem alookup_eq_none_iff {α : Type} (l : List (String × α)) (k : String) :
    alookup l k = none ↔ ¬ k ∈ keys l := by
  rw [← alookup_isSome_iff]
  cases alookup l k <;> simp

theorem alookup_mem {α : Type} (l : List (String × α)) (k : String) (v : α)
    (h : alookup l k = some v) : (k, v) ∈ l := by
  induction l with
  | nil => simp [alookup] at h
  | cons hd tl ih =>
    obtain ⟨k2, v2⟩ := hd
    by_cases h2 : k2 = k
    · subst h2
      simp [alookup] at h
      simp [h]
    · simp [alookup, h2] at h
      exact List.mem_cons_of_mem _ (ih h)

theorem keys_aset {α : Type} (l : List (String × α)) (k : String) (v : α) :
    keys (aset l k v) = if k ∈ keys l then keys l else keys l ++ [k] := by
  induction l with
  | nil => simp [aset, keys]
  | cons hd tl ih =>
    obtain ⟨k3, v3⟩ := hd
    by_cases h2 : k3 = k
    · subst h2
      simp [aset, keys]
    · have hk : keys (aset ((k3, v3) :: tl) k v) = k3 :: keys (aset tl k v) := by
        simp [aset, h2, keys]
      have hk2 : keys ((k3, v3) :: tl) = k3 :: keys tl := by simp [keys]
      rw [hk, hk2, ih]
      by_cases h3 : k ∈ keys tl
      · have h4 : k ∈ k3 :: keys tl := List.mem_cons_of_mem _ h3
        simp [h3, h4]
      · have h5 : ¬ k ∈ k3 :: keys tl := by
          intro hm
          rcases List.mem_cons.mp hm with rfl | hm2
          · exact h2 rfl
          · exact h3 hm2
        simp [h3, h5]

theorem mem_keys_aset {α : Type} (l : List (String × α)) (k k2 : String) (v : α)
    (h : k2 ∈ keys (aset l k v)) : k2 ∈ keys l ∨ k2 = k := by
  rw [keys_aset] at h
  by_cases h2 : k ∈ keys l
  · simp [h2] at h; exact Or.inl h
  · simp [h2] at h; exact h

theorem mem_keys_aset_of_mem {α : Type} (l : List (String × α)) (k k2 : String)
    (v : α) (h : k2 ∈ keys l) : k2 ∈ keys (aset l k v) := by
  rw [keys_aset]
  by_cases h2 : k ∈ keys l
  · simpa [h2] using h
  · simp [h2]; exact Or.inl h

theorem nodup_keys_aset {α : Type} (l : List (String × α)) (k : String) (v : α)
    (h : (keys l).Nodup) : (keys (aset l k v)).Nodup := by
  rw [keys_aset]
  by_cases h2 : k ∈ keys l
  · simpa [h2] using h
  · simp [h2, List.nodup_append, h]

theorem mem_aset_elim {α : Type} (l : List (String × α)) (k : String) (v : α)
    (kv : String × α) (h : kv ∈ aset l k v) : kv ∈ l ∨ kv = (k, v) := by
  induction l with
  | nil => simpa [aset] using h
  | cons hd tl ih =>
    obtain ⟨k3, v3⟩ := hd
    by_cases h2 : k3 = k
    · subst h2
      simp [aset] at h
      rcases h with rfl | h <;> tauto
    · simp [aset, h2] at h
      rcases h with rfl | h
      · tauto
      · rcases ih h with h3 | h3 <;> tauto

theorem isSome_alookup_aset {α : Type} (l : List (String × α)) (k k2 : String)
    (v : α) (h : (alookup l k2).isSome = true) :
    (alookup (aset l k v) k2).isSome = true := by
  by_cases h2 : k = k2
  · subst h2; simp [alookup_aset_self]
  · rwa [alookup_aset_ne l k k2 v h2]

theorem alookup_filter {α : Type} (p : String → Bool) (l : List (String × α))
    (k : String) :
    alookup (l.filter (fun kv => p kv.1)) k =
      if p k then alookup l k else none := by
  induction l with
  | nil => simp [alookup]
  | cons hd tl ih =>
    obtain ⟨k2, v2⟩ := hd
    by_cases h : k2 = k
    · subst h
      by_cases hp : p k2 <;> simp [List.filter, hp, alookup, ih]
    · by_cases hp : p k2 <;> simp [List.filter, hp, alookup, h, ih]

theorem nodup_keys_filter {α : Type} (p : String × α → Bool)
    (l : List (String × α)) (h : (keys l).Nodup) : (keys (l.filter p)).Nodup := by
  have hsub : (l.filter p).Sublist l := List.filter_sublist l
  exact (hsub.map Prod.fst).nodup h

theorem nodupB_iff (l : List String) : nodupB l = true ↔ l.Nodup := by
  induction l with
  | nil => simp [nodupB]
  | cons x xs ih => simp [nodupB, ih, List.elem_iff]

theorem isErr_map {α β : Type} (f : α → β) (e : Except String α) :
    isErr (e.map f) = isErr e := by
  cases e <;> rfl

theorem isErr_true_iff {α : Type} (e : Except String α) :
    isErr e = true ↔ ∃ msg, e = .error msg := by
  cases e <;> simp [isErr]

/-- C5: `encode_query_parameter` raises exactly in these cases: the
spaceDelimited and pipeDelimited styles with a non-array value (regardless
of explode), the deepObject style with a non-object value or with explode
not true, or an unrecognized style name; every other style/value/explode
combination returns a string without error. In particular the
deepObject/explode=false call on an object raises. -/
theorem c5_query_error_cases :
    (∀ (name : String) (v : JValue) (style : String) (explode : Bool),
      isErr (coreQuery name v style explode) =
        (if style = "form" then false
         else if style = "spaceDelimited" ∨ style = "pipeDelimited" then !isArrV v
         else if style = "deepObject" then !isObjV v || !explode
         else true)) ∧
    isErr (encode_query_parameter "id" (.obj [("a", .int 1), ("b", .int 2)])
      (some "deepObject") (some false)) = true := by
  refine ⟨?_, rfl⟩
  intro name v style explode
  by_cases h1 : style = "form"
  · subst h1
    cases v <;> cases explode <;> simp [coreQuery, isErr]
  · by_cases h2 : style = "spaceDelimited" ∨ style = "pipeDelimited"
    · have h3 : ¬ style = "deepObject" := by
        rcases h2 with rfl | rfl <;> simp
      cases v <;> cases explode <;> simp [coreQuery, isErr, h1, h2, h3, isArrV]
    · by_cases h4 : style = "deepObject"
      · subst h4
        cases v <;> cases explode <;> simp [coreQuery, isErr, isObjV]
      · cases v <;> cases explode <;> simp [coreQuery, isErr, h1, h2, h4]

theorem pyJoin_sep_concat (sep : String) (l : List String) (h : l ≠ []) :
    sep ++ pyJoin sep l = strConcat (l.map (fun x => sep ++ x)) := by
  induction l with
  | nil => exact absurd rfl h
  | cons x xs ih =>
    cases xs with
    | nil => simp [pyJoin, strConcat, String.append_empty]
    | cons y rest =>
      have h2 := ih (by simp)
      simp only [pyJoin, List.map_cons, strConcat] at h2 ⊢
      rw [← h2]
      simp [String.append_assoc]

/-- C6 counterexample: the claim describes the matrix/explode array encoding
as the concatenation of one `;name=element` segment per element, but the
empty array encodes as a single bare `";"` rather than the empty
concatenation of zero segments. -/
theorem c6_empty_array_counterexample :
    encode_path_parameter "id" (.arr []) (some "matrix") (some true) = .ok ";" ∧
    strConcat (([] : List JValue).map (fun v => ";" ++ ("id" ++ "=" ++ pyStr v))) = "" ∧
    (";" : String) ≠ "" := ⟨rfl, rfl, by decide⟩

/-- C6 amended: for every non-empty array, `encode_path_parameter` with
style matrix and explode=true returns exactly the concatenation of one
`;name=element` segment per element (elements rendered with Python `str`);
the degenerate empty array encodes as `";"`. -/
theorem c6_matrix_explode_amended (name : String) (l : List JValue) (h : l ≠ []) :
    encode_path_parameter name (.arr l) (some "matrix") (some true) =
      .ok (strConcat (l.map (fun v => ";" ++ (name ++ "=" ++ pyStr v)))) := by
  have h2 : l.map (fun v => name ++ "=" ++ pyStr v) ≠ [] := by simpa using h
  have h3 := pyJoin_sep_concat ";" (l.map (fun v => name ++ "=" ++ pyStr v)) h2
  simp only [List.map_map] at h3
  show Except.ok (";" ++ pyJoin ";" (l.map (fun v => name ++ "=" ++ pyStr v))) =
    Except.ok (strConcat (l.map (fun v => ";" ++ (name ++ "=" ++ pyStr v))))
  rw [h3]
  rfl

/-- C6 witness: the amended theorem at the spec's concrete example. -/
theorem c6_matrix_explode_witness :
    encode_path_parameter "id" (.arr [.int 3, .int 4, .int 5])
      (some "matrix") (some true) = .ok ";id=3;id=4;id=5" :=
  c6_matrix_explode_amended "id" [.int 3, .int 4, .int 5] (by simp)

theorem strConcat_all (p : Char → Bool) (l : List String)
    (h : ∀ x ∈ l, x.data.all p = true) : (strConcat l).data.all p = true := by
  induction l with
  | nil => rfl
  | cons x xs ih =>
    simp only [strConcat, String.data_append, List.all_append, Bool.and_eq_true]
    exact ⟨h x (by simp), ih (fun y hy => h y (List.mem_cons_of_mem _ hy))⟩

theorem hexDigit_ok (n : Nat) : okQuoteChar (hexDigit n) = true := by
  unfold hexDigit
  by_cases h : n < 16
  · interval_cases n <;> decide
  · have hl : ("0123456789ABCDEF".data).length = 16 := rfl
    rw [List.getD_eq_default]
    · decide
    · rw [hl]; omega

theorem pctByte_ok (b : UInt8) : (pctByte b).data.all okQuoteChar = true := by
  unfold pctByte
  simp only [String.data_append, List.all_append, Bool.and_eq_true]
  refine ⟨⟨?_, ?_⟩, ?_⟩
  · decide
  · simpa [String.singleton, List.all] using hexDigit_ok (b.toNat / 16)
  · simpa [String.singleton, List.all] using hexDigit_ok (b.toNat % 16)

theorem quoteChar_ok (c : Char) : (quoteChar c).data.all okQuoteChar = true := by
  unfold quoteChar
  by_cases h : quoteSafeChar c = true
  · have h2 := h
    simp only [quoteSafeChar, Bool.and_eq_true, Bool.or_eq_true] at h2
    obtain ⟨-, h3⟩ := h2
    simp only [h, if_true, String.singleton, List.all, Bool.and_true]
    simp only [okQuoteChar, Bool.or_eq_true]
    tauto
  · simp only [h, if_false]
    refine strConcat_all _ _ ?_
    intro x hx
    obtain ⟨b, -, rfl⟩ := List.mem_map.mp hx
    exact pctByte_ok b

theorem pyQuote_ok (s : String) : (pyQuote s).data.all okQuoteChar = true := by
  refine strConcat_all _ _ ?_
  intro x hx
  obtain ⟨c, -, rfl⟩ := List.mem_map.mp hx
  exact quoteChar_ok c

/-- C7 counterexample: the claim that every emitted value is percent-encoded
with reserved characters escaped fails for the slash: `urllib.parse.quote`
is called with its default `safe="/"`, so the reserved character `/` is
emitted verbatim in the value text. -/
theorem c7_slash_counterexample :
    encode_query_parameter "id" (.str "/") none none = .ok "id=/" ∧
    pyQuote "/" = "/" ∧
    '/' ∈ rfc3986ReservedChars := ⟨rfl, rfl, by decide⟩

/-- C7 amended: every character of an emitted value is unreserved, a
percent-escape character, or the slash that `quote`'s default `safe="/"`
leaves intact; a form-style non-exploded array encodes as the name, `=`,
and the comma-joined percent-encoded elements, so the spec's example
returns `id=3,4,5`. -/
theorem c7_percent_encoding_amended :
    (∀ s : String, (pyQuote s).data.all okQuoteChar = true) ∧
    (∀ (name : String) (l : List JValue),
      coreQuery name (.arr l) "form" false =
        .ok (name ++ "=" ++ pyJoin "," (l.map (fun v => pyQuote (pyStr v))))) ∧
    encode_query_parameter "id" (.arr [.int 3, .int 4, .int 5])
      (some "form") (some false) = .ok "id=3,4,5" :=
  ⟨pyQuote_ok, fun _ _ => rfl, rfl⟩

theorem strMk_data (s : String) : String.mk s.data = s := rfl

theorem fqGo_eq_mapM (encs : List (String × EncodingMeta QueryStyle))
    (params : List (String × JValue)) :
    fqGo encs params = params.mapM (encodeResolvedQuery encs) := by
  induction params with
  | nil => rw [List.mapM_nil]; rfl
  | cons p rest ih =>
    obtain ⟨n, v⟩ := p
    rw [List.mapM_cons, ← ih]
    cases halookup : alookup encs n with
    | none => simp only [fqGo, encodeResolvedQuery, halookup]; rfl
    | some em => simp only [fqGo, encodeResolvedQuery, halookup]; rfl

/-- C8 counterexample: the claim that `format_query` joins the non-empty
encoded fragments (which would give `b=5` here, since the exploded empty
array encodes to the empty fragment) fails: the code joins every fragment,
empty ones included, producing `&b=5`. -/
theorem c8_empty_fragment_counterexample :
    format_query [("a", .arr []), ("b", .int 5)] [] = .ok "&b=5" ∧
    pyJoin "&" ["b=5"] = "b=5" ∧
    ("&b=5" : String) ≠ "b=5" := ⟨rfl, rfl, by decide⟩

/-- C8 amended: `format_query` encodes each parameter with its resolved
style/explode (absent encodings default to form/explode=true inside the
encoder) and joins ALL encoded fragments with `&`, the empty ones included;
for the empty parameter dict the result is the empty string. -/
theorem c8_format_query_amended :
    (∀ encs, format_query [] encs = .ok "") ∧
    (∀ (params : List (String × JValue)) (encs : List (String × EncodingMeta QueryStyle)),
      format_query params encs =
        (params.mapM (encodeResolvedQuery encs)).map (pyJoin "&")) ∧
    format_query [("a", .arr []), ("b", .int 5)] [] = .ok "&b=5" := by
  refine ⟨fun encs => rfl, ?_, rfl⟩
  intro params encs
  unfold format_query
  rw [fqGo_eq_mapM]

theorem splitCommasAux_no_comma (cs : List Char) (h : ¬ ',' ∈ cs) :
    ∀ cur, splitCommasAux cur cs = [cur.reverse ++ cs] := by
  induction cs with
  | nil => intro cur; simp [splitCommasAux]
  | cons c rest ih =>
    intro cur
    have hc : ¬ c = ',' := by
      intro hh
      exact h (hh ▸ List.mem_cons_self c rest)
    simp only [splitCommasAux, if_neg hc]
    rw [ih (fun hm => h (List.mem_cons_of_mem _ hm)) (c :: cur)]
    simp

theorem splitCommasAux_append (xs rest : List Char) (h : ¬ ',' ∈ xs) :
    ∀ cur, splitCommasAux cur (xs ++ ',' :: rest) =
      (cur.reverse ++ xs) :: splitCommasAux [] rest := by
  induction xs with
  | nil => intro cur; simp [splitCommasAux]
  | cons x xs2 ih =>
    intro cur
    have hx : ¬ x = ',' := by
      intro hh
      exact h (hh ▸ List.mem_cons_self x xs2)
    rw [List.cons_append]
    simp only [splitCommasAux, if_neg hx]
    rw [ih (fun hm => h (List.mem_cons_of_mem _ hm)) (x :: cur)]
    simp

theorem splitCommas_pyJoin (ss : List String) (h : ss ≠ [])
    (h2 : ∀ x ∈ ss, ¬ ',' ∈ x.data) : splitCommas (pyJoin "," ss) = ss := by
  induction ss with
  | nil => exact absurd rfl h
  | cons x xs ih =>
    cases xs with
    | nil =>
      show splitCommas (pyJoin "," [x]) = [x]
      unfold splitCommas pyJoin
      rw [splitCommasAux_no_comma x.data (h2 x (by simp)) []]
      simp [strMk_data]
    | cons y rest =>
      have ihr := ih (by simp) (fun z hz => h2 z (List.mem_cons_of_mem _ hz))
      show splitCommas (x ++ "," ++ pyJoin "," (y :: rest)) = x :: y :: rest
      unfold splitCommas
      have hdata : (x ++ "," ++ pyJoin "," (y :: rest)).data
          = x.data ++ ',' :: (pyJoin "," (y :: rest)).data := by
        rw [String.data_append, String.data_append]
        simp
      rw [hdata, splitCommasAux_append x.data _ (h2 x (by simp)) []]
      simp only [List.reverse_nil, List.nil_append, List.map_cons, strMk_data]
      show x :: splitCommas (pyJoin "," (y :: rest)) = x :: y :: rest
      rw [ihr]

/-- C9 counterexample: splitting the simple/explode=false encoding on commas
does not recover the original array once an element's stringified form
itself contains a comma: the one-element array `["a,b"]` encodes to `a,b`,
which splits into two fragments. -/
theorem c9_comma_counterexample :
    encode_path_parameter "id" (.arr [.str "a,b"]) none none = .ok "a,b" ∧
    splitCommas "a,b" = ["a", "b"] ∧
    ["a", "b"] ≠ [toStr (.str "a,b")] := ⟨rfl, rfl, by decide⟩

/-- C9 amended: for every non-empty array none of whose elements stringify
to text containing a comma, encoding with style simple and explode=false
yields the comma-join of the stringified elements, and splitting that path
segment on commas recovers exactly the stringified elements in order. -/
theorem c9_roundtrip_amended (name : String) (l : List JValue) (h1 : l ≠ [])
    (h2 : ∀ v ∈ l, ¬ ',' ∈ (toStr v).data) :
    encode_path_parameter name (.arr l) none none = .ok (pyJoin "," (l.map toStr)) ∧
    splitCommas (pyJoin "," (l.map toStr)) = l.map toStr := by
  refine ⟨rfl, ?_⟩
  refine splitCommas_pyJoin _ (by simpa using h1) ?_
  intro x hx
  obtain ⟨v, hv, rfl⟩ := List.mem_map.mp hx
  exact h2 v hv

/-- C9 witness: the amended round-trip at the array `[3, 4, 5]`. -/
theorem c9_roundtrip_witness :
    encode_path_parameter "id" (.arr [.int 3, .int 4, .int 5]) none none = .ok "3,4,5" ∧
    splitCommas "3,4,5" = ["3", "4", "5"] :=
  c9_roundtrip_amended "id" [.int 3, .int 4, .int 5] (by simp) (by decide)

theorem isErr_false_iff {α : Type} (e : Except String α) :
    isErr e = false ↔ ∃ a, e = .ok a := by
  cases e <;> simp [isErr]

theorem fmGo_err_of_missing (m : List (String × String)) (n : String)
    (hn : alookup m n = none) :
    ∀ (cs : List Char) (mode : FmtMode),
      n ∈ phGo mode cs → isErr (fmGo m mode cs) = true := by
  intro cs
  induction cs with
  | nil =>
    intro mode hmem
    simp [phGo] at hmem
  | cons c rest ih =>
    intro mode hmem
    cases mode with
    | text =>
      by_cases h1 : c = Char.ofNat 123
      · simp only [phGo, if_pos h1] at hmem
        simp only [fmGo, if_pos h1]
        exact ih _ hmem
      · by_cases h2 : c = Char.ofNat 125
        · simp only [phGo, if_neg h1, if_pos h2] at hmem
          simp only [fmGo, if_neg h1, if_pos h2]
          exact ih _ hmem
        · simp only [phGo, if_neg h1, if_neg h2] at hmem
          simp only [fmGo, if_neg h1, if_neg h2, isErr_map]
          exact ih _ hmem
    | open0 =>
      by_cases h1 : c = Char.ofNat 123
      · simp only [phGo, if_pos h1] at hmem
        simp only [fmGo, if_pos h1, isErr_map]
        exact ih _ hmem
      · by_cases h2 : c = Char.ofNat 125
        · simp only [phGo, if_neg h1, if_pos h2] at hmem
          exact absurd hmem (List.not_mem_nil n)
        · simp only [phGo, if_neg h1, if_neg h2] at hmem
          simp only [fmGo, if_neg h1, if_neg h2]
          exact ih _ hmem
    | name acc =>
      by_cases h1 : c = Char.ofNat 125
      · simp only [phGo, if_pos h1] at hmem
        simp only [fmGo, if_pos h1]
        rcases List.mem_cons.mp hmem with rfl | hmem2
        · simp only [hn]
          rfl
        · cases hcase : alookup m (String.mk acc.reverse) with
          | none => rfl
          | some v =>
            simp only [isErr_map]
            exact ih _ hmem2
      · by_cases h2 : c = Char.ofNat 123
        · simp only [phGo, if_neg h1, if_pos h2] at hmem
          exact absurd hmem (List.not_mem_nil n)
        · simp only [phGo, if_neg h1, if_neg h2] at hmem
          simp only [fmGo, if_neg h1, if_neg h2]
          exact ih _ hmem
    | close0 =>
      by_cases h1 : c = Char.ofNat 125
      · simp only [phGo, if_pos h1] at hmem
        simp only [fmGo, if_pos h1, isErr_map]
        exact ih _ hmem
      · simp only [phGo, if_neg h1] at hmem
        exact absurd hmem (List.not_mem_nil n)

theorem fmGo_missing_kind (m : List (String × String)) :
    ∀ (cs : List Char) (mode : FmtMode), tplGo mode cs = true →
      (∃ n, n ∈ phGo mode cs ∧ alookup m n = none) →
      ∃ n2, alookup m n2 = none ∧
        fmGo m mode cs = .error ("MissingPathParameter: " ++ n2) := by
  intro cs
  induction cs with
  | nil =>
    intro mode ht hex
    obtain ⟨n, hmem, -⟩ := hex
    simp [phGo] at hmem
  | cons c rest ih =>
    intro mode ht hex
    obtain ⟨n, hmem, hn⟩ := hex
    cases mode with
    | text =>
      by_cases h1 : c = Char.ofNat 123
      · simp only [phGo, if_pos h1] at hmem
        simp only [tplGo, if_pos h1] at ht
        simp only [fmGo, if_pos h1]
        exact ih _ ht ⟨n, hmem, hn⟩
      · by_cases h2 : c = Char.ofNat 125
        · simp only [phGo, if_neg h1, if_pos h2] at hmem
          simp only [tplGo, if_neg h1, if_pos h2] at ht
          simp only [fmGo, if_neg h1, if_pos h2]
          exact ih _ ht ⟨n, hmem, hn⟩
        · simp only [phGo, if_neg h1, if_neg h2] at hmem
          simp only [tplGo, if_neg h1, if_neg h2] at ht
          obtain ⟨n2, hn2, heq⟩ := ih _ ht ⟨n, hmem, hn⟩
          refine ⟨n2, hn2, ?_⟩
          simp only [fmGo, if_neg h1, if_neg h2, heq]
          rfl
    | open0 =>
      by_cases h1 : c = Char.ofNat 123
      · simp only [phGo, if_pos h1] at hmem
        simp only [tplGo, if_pos h1] at ht
        obtain ⟨n2, hn2, heq⟩ := ih _ ht ⟨n, hmem, hn⟩
        refine ⟨n2, hn2, ?_⟩
        simp only [fmGo, if_pos h1, heq]
        rfl
      · by_cases h2 : c = Char.ofNat 125
        · simp [tplGo, if_neg h1, if_pos h2] at ht
        · simp only [phGo, if_neg h1, if_neg h2] at hmem
          simp only [tplGo, if_neg h1, if_neg h2] at ht
          simp only [fmGo, if_neg h1, if_neg h2]
          exact ih _ ht ⟨n, hmem, hn⟩
    | name acc =>
      by_cases h1 : c = Char.ofNat 125
      · simp only [phGo, if_pos h1] at hmem
        simp only [tplGo, if_pos h1] at ht
        simp only [fmGo, if_pos h1]
        cases hcase : alookup m (String.mk acc.reverse) with
        | none => exact ⟨String.mk acc.reverse, hcase, rfl⟩
        | some v =>
          rcases List.mem_cons.mp hmem with rfl | hmem2
          · rw [hcase] at hn
            exact absurd hn (by simp)
          · obtain ⟨n2, hn2, heq⟩ := ih _ ht ⟨n, hmem2, hn⟩
            refine ⟨n2, hn2, ?_⟩
            simp only [heq]
            rfl
      · by_cases h2 : c = Char.ofNat 123
        · simp [tplGo, if_neg h1, if_pos h2] at ht
        · simp only [phGo, if_neg h1, if_neg h2] at hmem
          simp only [tplGo, if_neg h1, if_neg h2] at ht
          simp only [fmGo, if_neg h1, if_neg h2]
          exact ih _ ht ⟨n, hmem, hn⟩
    | close0 =>
      by_cases h1 : c = Char.ofNat 125
      · simp only [phGo, if_pos h1] at hmem
        simp only [tplGo, if_pos h1] at ht
        obtain ⟨n2, hn2, heq⟩ := ih _ ht ⟨n, hmem, hn⟩
        refine ⟨n2, hn2, ?_⟩
        simp only [fmGo, if_pos h1, heq]
        rfl
      · simp [tplGo, if_neg h1] at ht

theorem corePath_ok (n : String) (v : JValue) (style : String) (explode : Bool)
    (h : style = "simple" ∨ style = "label" ∨ style = "matrix") :
    isErr (corePath n v style explode) = false := by
  rcases h with rfl | rfl | rfl <;> cases v <;> rfl

theorem encode_path_parameter_ok (n : String) (v : JValue)
    (st : Option PathStyle) (e : Option Bool) :
    isErr (encode_path_parameter n v (st.map pathStyleStr) e) = false := by
  cases st with
  | none =>
    cases e <;>
      exact corePath_ok n v "simple" _ (Or.inl rfl)
  | some s =>
    cases s <;> cases e <;>
      first
      | exact corePath_ok n v "simple" _ (Or.inl rfl)
      | exact corePath_ok n v "label" _ (Or.inr (Or.inl rfl))
      | exact corePath_ok n v "matrix" _ (Or.inr (Or.inr rfl))

theorem bfm_ok (encodings : List (String × EncodingMeta PathStyle)) :
    ∀ (params : List (String × JValue)) (acc : List (String × String)),
      ∃ fm, buildFormattedMap encodings params acc = .ok fm ∧
        ∀ n2, (alookup fm n2 = none ↔ (alookup acc n2 = none ∧ ¬ n2 ∈ keys params)) := by
  intro params
  induction params with
  | nil =>
    intro acc
    exact ⟨acc, rfl, by simp [keys]⟩
  | cons p rest ih =>
    intro acc
    obtain ⟨np, vp⟩ := p
    have hkeys : keys ((np, vp) :: rest) = np :: keys rest := rfl
    cases halookup : alookup encodings np with
    | none =>
      have hok := encode_path_parameter_ok np vp none none
      obtain ⟨s, hs⟩ := (isErr_false_iff _).mp hok
      obtain ⟨fm, heq, hchar⟩ := ih (aset acc np s)
      refine ⟨fm, ?_, ?_⟩
      · simp only [buildFormattedMap, halookup]
        rw [show (Option.map pathStyleStr none : Option String) = none from rfl] at hs
        rw [hs]
        exact heq
      · intro n2
        rw [hchar n2, hkeys]
        by_cases h2 : n2 = np
        · subst h2
          simp [alookup_aset_self]
        · rw [alookup_aset_ne acc np n2 s (fun hh => h2 hh.symm)]
          simp [h2]
    | some em =>
      have hok := encode_path_parameter_ok np vp (some em.style) (some em.explode)
      obtain ⟨s, hs⟩ := (isErr_false_iff _).mp hok
      obtain ⟨fm, heq, hchar⟩ := ih (aset acc np s)
      refine ⟨fm, ?_, ?_⟩
      · simp only [buildFormattedMap, halookup]
        rw [show Option.map pathStyleStr (some em.style) = some (pathStyleStr em.style) from rfl] at hs
        rw [hs]
        exact heq
      · intro n2
        rw [hchar n2, hkeys]
        by_cases h2 : n2 = np
        · subst h2
          simp [alookup_aset_self]
        · rw [alookup_aset_ne acc np n2 s (fun hh => h2 hh.symm)]
          simp [h2]

theorem format_path_err_of_missing (path : String) (params : List (String × JValue))
    (encs : List (String × EncodingMeta PathStyle)) (n : String)
    (hn : n ∈ placeholders path) (hmiss : alookup params n = none) :
    isErr (format_path path params encs) = true := by
  obtain ⟨fm, heq, hchar⟩ := bfm_ok encs params []
  have hfmn : alookup fm n = none := by
    rw [hchar n]
    exact ⟨rfl, (alookup_eq_none_iff params n).mp hmiss⟩
  unfold format_path
  rw [heq]
  show isErr (formatMap path fm) = true
  exact fmGo_err_of_missing fm n hfmn path.data .text hn

theorem format_path_missing_kind (path : String) (params : List (String × JValue))
    (encs : List (String × EncodingMeta PathStyle)) (n : String)
    (hwf : tplWellFormed path = true) (hn : n ∈ placeholders path)
    (hmiss : alookup params n = none) :
    ∃ n2, format_path path params encs = .error ("MissingPathParameter: " ++ n2) := by
  obtain ⟨fm, heq, hchar⟩ := bfm_ok encs params []
  have hfmn : alookup fm n = none := by
    rw [hchar n]
    exact ⟨rfl, (alookup_eq_none_iff params n).mp hmiss⟩
  obtain ⟨n2, -, herr⟩ := fmGo_missing_kind fm path.data .text hwf ⟨n, hn, hfmn⟩
  refine ⟨n2, ?_⟩
  unfold format_path
  rw [heq]
  exact herr

theorem buildRequestModel_err_of_missing (op : Operation)
    (k2l : List (String × String)) (vobj : List (String × JValue)) (n : String)
    (hne : (getBucket (distribute k2l vobj []) "requestPath").isEmpty = false)
    (hn : n ∈ placeholders op.path)
    (hmiss : alookup (getBucket (distribute k2l vobj []) "requestPath") n = none) :
    isErr (buildRequestModel op k2l vobj) = true := by
  have herr := format_path_err_of_missing op.path _ (pathEncodingsOf op) n hn hmiss
  obtain ⟨msg, hmsg⟩ := (isErr_true_iff _).mp herr
  unfold buildRequestModel
  simp only [hne, Bool.false_eq_true, if_false, hmsg]
  rfl

/-- C4 counterexample: when the requestPath bucket of the validated object
is empty, `_build_request_model` skips the path formatter entirely and
returns the raw template unchanged, even though the template references the
placeholder `userId` with no supplied value — no missing-parameter error is
raised, contradicting the claim as stated. -/
theorem c4_empty_bucket_counterexample :
    "userId" ∈ placeholders opNoParams.path ∧
    buildRequestModel opNoParams [] [] =
      .ok { path := "/users/\x7buserId\x7d", method := "get" } ∧
    isErr (buildRequestModel opNoParams [] []) = false := ⟨by decide, rfl, rfl⟩

/-- C4 amended: `format_path` always raises when the template references a
placeholder with no supplied value (a missing-parameter error on
brace-well-formed templates, with no default substituted), and
`_build_request_model` does so whenever the requestPath bucket is
non-empty; with an empty bucket the formatter is skipped and the raw
template is returned instead. -/
theorem c4_missing_param_amended :
    (∀ (path : String) (params : List (String × JValue))
       (encs : List (String × EncodingMeta PathStyle)) (n : String),
      n ∈ placeholders path → alookup params n = none →
      isErr (format_path path params encs) = true) ∧
    (∀ (path : String) (params : List (String × JValue))
       (encs : List (String × EncodingMeta PathStyle)) (n : String),
      tplWellFormed path = true → n ∈ placeholders path →
      alookup params n = none →
      ∃ n2, format_path path params encs =
        .error ("MissingPathParameter: " ++ n2)) ∧
    (∀ (op : Operation) (k2l : List (String × String))
       (vobj : List (String × JValue)) (n : String),
      (getBucket (distribute k2l vobj []) "requestPath").isEmpty = false →
      n ∈ placeholders op.path →
      alookup (getBucket (distribute k2l vobj []) "requestPath") n = none →
      isErr (buildRequestModel op k2l vobj) = true) :=
  ⟨format_path_err_of_missing, format_path_missing_kind,
   buildRequestModel_err_of_missing⟩

/-- C4 witness: the amended theorem at concrete inputs — a direct
`format_path` call with an unsupplied placeholder, and a request build
whose non-empty path bucket lacks the template's second placeholder. -/
theorem c4_missing_param_witness :
    isErr (format_path "/users/\x7buserId\x7d" [] []) = true ∧
    (∃ n2, format_path "/users/\x7buserId\x7d" [] [] =
      .error ("MissingPathParameter: " ++ n2)) ∧
    isErr (buildRequestModel opTwoPh [("x", "requestPath")] [("x", .int 1)]) = true :=
  ⟨c4_missing_param_amended.1 _ [] [] "userId" (by decide) rfl,
   c4_missing_param_amended.2.1 _ [] [] "userId" rfl (by decide) rfl,
   c4_missing_param_amended.2.2 opTwoPh _ _ "y" rfl (by decide) rfl⟩

/-- C10 counterexample: a validated object whose requestPath bucket is
empty can still make `_build_request_model` raise — here the query
parameter is declared with the always-failing deepObject/explode=false
encoding, so the build raises a query-encoding error and returns no
RequestModel, contradicting the claim's "raises no error". -/
theorem c10_query_error_counterexample :
    (analyzeMetas (opMetas opQDeep)).keyToLoc = [("filter", "requestQuery")] ∧
    (getBucket (distribute (analyzeMetas (opMetas opQDeep)).keyToLoc
      [("filter", .int 5)] []) "requestPath").isEmpty = true ∧
    isErr (buildRequestModel opQDeep (analyzeMetas (opMetas opQDeep)).keyToLoc
      [("filter", .int 5)]) = true := ⟨rfl, rfl, rfl⟩

/-- C10 amended: for every validated object whose requestPath bucket ends
up empty, provided the requestQuery bucket is empty or encodes without
error, `_build_request_model` returns a RequestModel whose path is the
operation's raw template character for character (placeholders left
unsubstituted); the path formatter is never consulted. -/
theorem c10_empty_bucket_amended (op : Operation) (k2l : List (String × String))
    (vobj : List (String × JValue))
    (h1 : (getBucket (distribute k2l vobj []) "requestPath").isEmpty = true)
    (h2 : (getBucket (distribute k2l vobj []) "requestQuery").isEmpty = true ∨
      ∃ s, format_query (getBucket (distribute k2l vobj []) "requestQuery")
        (queryEncodingsOf op) = .ok s) :
    ∃ rm, buildRequestModel op k2l vobj = .ok rm ∧ rm.path = op.path := by
  unfold buildRequestModel
  simp only [h1, if_true]
  by_cases hq : (getBucket (distribute k2l vobj []) "requestQuery").isEmpty = true
  · simp only [hq, if_true]
    exact ⟨_, rfl, rfl⟩
  · rcases h2 with h2 | ⟨s, hs⟩
    · exact absurd h2 hq
    · simp only [hq, Bool.false_eq_true, if_false, hs]
      exact ⟨_, rfl, rfl⟩

/-- C10 witness: the amended theorem at an operation with no parameters. -/
theorem c10_empty_bucket_witness :
    ∃ rm, buildRequestModel opEmpty [] [] = .ok rm ∧ rm.path = opEmpty.path :=
  c10_empty_bucket_amended opEmpty [] [] rfl (Or.inl rfl)

theorem addNested_mem_self (l : List String) (loc : String) :
    loc ∈ addNested l loc := by
  unfold addNested
  by_cases h : loc ∈ l <;> simp [h]

theorem addNested_mem_elim (l : List String) (loc x : String)
    (h : x ∈ addNested l loc) : x ∈ l ∨ x = loc := by
  unfold addNested at h
  by_cases h2 : loc ∈ l
  · simp [h2] at h; exact Or.inl h
  · simp [h2] at h; exact h

theorem addNested_mem_of_mem (l : List String) (loc x : String) (h : x ∈ l) :
    x ∈ addNested l loc := by
  unfold addNested
  by_cases h2 : loc ∈ l <;> simp [h2, h]

theorem addPropsGo_required (loc : String) :
    ∀ (props : List (String × JValue)) (st : ComposeState),
      (addPropsGo loc props st).2.required = st.required := by
  intro props
  induction props with
  | nil => intro st; rfl
  | cons p rest ih =>
    intro st
    obtain ⟨key, value⟩ := p
    by_cases h1 : key ∈ reservedKeys
    · simp [addPropsGo, h1]
    · by_cases h2 : (alookup st.properties key).isSome = true
      · by_cases h3 : alookup st.keyToLoc key ≠ some loc
        · simp [addPropsGo, h1, h2, h3]
        · simp only [addPropsGo, if_neg h1, if_pos h2, if_neg h3]
          exact ih st
      · simp only [addPropsGo, if_neg h1, if_neg h2]
        exact ih _

theorem addPropsGo_nested_mono (loc : String) :
    ∀ (props : List (String × JValue)) (st : ComposeState) (x : String),
      x ∈ st.nestedLocs → x ∈ (addPropsGo loc props st).2.nestedLocs := by
  intro props
  induction props with
  | nil => intro st x h; exact h
  | cons p rest ih =>
    intro st x h
    obtain ⟨key, value⟩ := p
    by_cases h1 : key ∈ reservedKeys
    · simp only [addPropsGo, if_pos h1]
      exact addNested_mem_of_mem _ _ _ h
    · by_cases h2 : (alookup st.properties key).isSome = true
      · by_cases h3 : alookup st.keyToLoc key ≠ some loc
        · simp only [addPropsGo, if_neg h1, if_pos h2, if_pos h3]
          exact addNested_mem_of_mem _ _ _ h
        · simp only [addPropsGo, if_neg h1, if_pos h2, if_neg h3]
          exact ih st x h
      · simp only [addPropsGo, if_neg h1, if_neg h2]
        exact ih _ x h

theorem addPropsGo_false_nested (loc : String) :
    ∀ (props : List (String × JValue)) (st : ComposeState),
      (addPropsGo loc props st).1 = false →
      loc ∈ (addPropsGo loc props st).2.nestedLocs := by
  intro props
  induction props with
  | nil => intro st h; simp [addPropsGo] at h
  | cons p rest ih =>
    intro st h
    obtain ⟨key, value⟩ := p
    by_cases h1 : key ∈ reservedKeys
    · simp only [addPropsGo, if_pos h1]
      exact addNested_mem_self _ _
    · by_cases h2 : (alookup st.properties key).isSome = true
      · by_cases h3 : alookup st.keyToLoc key ≠ some loc
        · simp only [addPropsGo, if_neg h1, if_pos h2, if_pos h3]
          exact addNested_mem_self _ _
        · simp only [addPropsGo, if_neg h1, if_pos h2, if_neg h3] at h ⊢
          exact ih st h
      · simp only [addPropsGo, if_neg h1, if_neg h2] at h ⊢
        exact ih _ h

theorem addPropsGo_k2l_elim (loc : String) :
    ∀ (props : List (String × JValue)) (st : ComposeState)
      (kv : String × String),
      kv ∈ (addPropsGo loc props st).2.keyToLoc →
      kv ∈ st.keyToLoc ∨ kv.2 = loc := by
  intro props
  induction props with
  | nil => intro st kv h; exact Or.inl h
  | cons p rest ih =>
    intro st kv h
    obtain ⟨key, value⟩ := p
    by_cases h1 : key ∈ reservedKeys
    · simp only [addPropsGo, if_pos h1] at h
      exact Or.inl h
    · by_cases h2 : (alookup st.properties key).isSome = true
      · by_cases h3 : alookup st.keyToLoc key ≠ some loc
        · simp only [addPropsGo, if_neg h1, if_pos h2, if_pos h3] at h
          exact Or.inl h
        · simp only [addPropsGo, if_neg h1, if_pos h2, if_neg h3] at h
          exact ih st kv h
      · simp only [addPropsGo, if_neg h1, if_neg h2] at h
        rcases ih _ kv h with h4 | h4
        · rcases mem_aset_elim st.keyToLoc key loc kv h4 with h5 | h5
          · exact Or.inl h5
          · subst h5; exact Or.inr rfl
        · exact Or.inr h4

theorem addPropsGo_props_pres (loc : String) :
    ∀ (props : List (String × JValue)) (st : ComposeState) (k : String),
      (alookup st.properties k).isSome = true →
      alookup (addPropsGo loc props st).2.properties k = alookup st.properties k := by
  intro props
  induction props with
  | nil => intro st k _; rfl
  | cons p rest ih =>
    intro st k hk
    obtain ⟨key, value⟩ := p
    by_cases h1 : key ∈ reservedKeys
    · simp only [addPropsGo, if_pos h1]
    · by_cases h2 : (alookup st.properties key).isSome = true
      · by_cases h3 : alookup st.keyToLoc key ≠ some loc
        · simp only [addPropsGo, if_neg h1, if_pos h2, if_pos h3]
        · simp only [addPropsGo, if_neg h1, if_pos h2, if_neg h3]
          exact ih st k hk
      · simp only [addPropsGo, if_neg h1, if_neg h2]
        have hne : key ≠ k := by
          intro hh
          rw [hh] at h2
          exact h2 hk
        have hsame : alookup (aset st.properties key value) k = alookup st.properties k :=
          alookup_aset_ne st.properties key k value hne
        rw [ih _ k (by rw [hsame]; exact hk), hsame]

theorem stInv_set_required (st : ComposeState) (r : List JValue) (h : StInv st) :
    StInv { st with required := r } :=
  ⟨h.nodupProps, h.nodupK2L, h.k2lNotReserved, h.k2lInProps, h.propsOwned,
   h.propsReservedNested, h.nestedReserved, h.k2lNotBody⟩

theorem stInv_addNested (st : ComposeState) (loc : String)
    (hloc : loc ∈ reservedKeys) (h : StInv st) :
    StInv { st with nestedLocs := addNested st.nestedLocs loc } := by
  refine ⟨h.nodupProps, h.nodupK2L, h.k2lNotReserved, h.k2lInProps,
    h.propsOwned, ?_, ?_, h.k2lNotBody⟩
  · intro kv hkv hres
    exact addNested_mem_of_mem _ _ _ (h.propsReservedNested kv hkv hres)
  · intro x hx
    rcases addNested_mem_elim _ _ _ hx with h2 | rfl
    · exact h.nestedReserved x h2
    · exact hloc

theorem stInv_aset_reserved (st : ComposeState) (loc : String) (s : JValue)
    (hloc : loc ∈ reservedKeys) (hnest : loc ∈ st.nestedLocs) (h : StInv st) :
    StInv { st with properties := aset st.properties loc s } := by
  refine ⟨nodup_keys_aset _ _ _ h.nodupProps, h.nodupK2L, h.k2lNotReserved,
    ?_, ?_, ?_, h.nestedReserved, h.k2lNotBody⟩
  · intro kv hkv
    exact isSome_alookup_aset _ _ _ _ (h.k2lInProps kv hkv)
  · intro kv hkv
    rcases mem_aset_elim _ _ _ _ hkv with h2 | rfl
    · exact h.propsOwned kv h2
    · exact Or.inl hloc
  · intro kv hkv hres
    rcases mem_aset_elim _ _ _ _ hkv with h2 | rfl
    · exact h.propsReservedNested kv h2 hres
    · exact hnest

theorem addPropsGo_inv (loc : String) (hloc : loc ∈ reservedKeys)
    (hnb : loc ≠ "requestBody") :
    ∀ (props : List (String × JValue)) (st : ComposeState), StInv st →
      StInv (addPropsGo loc props st).2 := by
  intro props
  induction props with
  | nil => intro st h; exact h
  | cons p rest ih =>
    intro st h
    obtain ⟨key, value⟩ := p
    by_cases h1 : key ∈ reservedKeys
    · simp only [addPropsGo, if_pos h1]
      exact stInv_addNested st loc hloc h
    · by_cases h2 : (alookup st.properties key).isSome = true
      · by_cases h3 : alookup st.keyToLoc key ≠ some loc
        · simp only [addPropsGo, if_neg h1, if_pos h2, if_pos h3]
          exact stInv_addNested st loc hloc h
        · simp only [addPropsGo, if_neg h1, if_pos h2, if_neg h3]
          exact ih st h
      · simp only [addPropsGo, if_neg h1, if_neg h2]
        refine ih _ ?_
        refine ⟨nodup_keys_aset _ _ _ h.nodupProps,
          nodup_keys_aset _ _ _ h.nodupK2L, ?_, ?_, ?_, ?_,
          h.nestedReserved, ?_⟩
        · intro kv hkv
          rcases mem_aset_elim _ _ _ _ hkv with h4 | rfl
          · exact h.k2lNotReserved kv h4
          · exact h1
        · intro kv hkv
          rcases mem_aset_elim _ _ _ _ hkv with h4 | rfl
          · exact isSome_alookup_aset _ _ _ _ (h.k2lInProps kv h4)
          · rw [alookup_aset_self]; rfl
        · intro kv hkv
          rcases mem_aset_elim _ _ _ _ hkv with h4 | rfl
          · rcases h.propsOwned kv h4 with h5 | h5
            · exact Or.inl h5
            · exact Or.inr (isSome_alookup_aset _ _ _ _ h5)
          · refine Or.inr ?_
            rw [alookup_aset_self]; rfl
        · intro kv hkv hres
          rcases mem_aset_elim _ _ _ _ hkv with h4 | rfl
          · exact h.propsReservedNested kv h4 hres
          · exact absurd hres h1
        · intro kv hkv
          rcases mem_aset_elim _ _ _ _ hkv with h4 | rfl
          · exact h.k2lNotBody kv h4
          · exact hnb

theorem addPropsGo_false_of_collision (loc : String) :
    ∀ (props : List (String × JValue)) (st : ComposeState),
      (∀ kv ∈ st.keyToLoc, (alookup st.properties kv.1).isSome = true) →
      (∃ k, k ∈ keys props ∧ (k ∈ reservedKeys ∨
        ∃ l2, alookup st.keyToLoc k = some l2 ∧ l2 ≠ loc)) →
      (addPropsGo loc props st).1 = false := by
  intro props
  induction props with
  | nil =>
    intro st hsub hex
    obtain ⟨k, hk, -⟩ := hex
    simp [keys] at hk
  | cons p rest ih =>
    intro st hsub hex
    obtain ⟨key, value⟩ := p
    obtain ⟨k, hk, harm⟩ := hex
    have hkcons : k ∈ key :: keys rest := hk
    by_cases h1 : key ∈ reservedKeys
    · simp [addPropsGo, h1]
    · by_cases h2 : (alookup st.properties key).isSome = true
      · by_cases h3 : alookup st.keyToLoc key ≠ some loc
        · simp [addPropsGo, h1, h2, h3]
        · have h3e : alookup st.keyToLoc key = some loc := not_not.mp h3
          have hkk : k ≠ key := by
            intro hh
            subst hh
            rcases harm with h4 | ⟨l2, h5, h6⟩
            · exact h1 h4
            · rw [h3e] at h5
              injection h5 with h5e
              exact h6 h5e.symm
          have hkrest : k ∈ keys rest := by
            rcases List.mem_cons.mp hkcons with rfl | hh
            · exact absurd rfl hkk
            · exact hh
          simp only [addPropsGo, if_neg h1, if_pos h2, if_neg h3]
          exact ih st hsub ⟨k, hkrest, harm⟩
      · have hkk : k ≠ key := by
          intro hh
          subst hh
          rcases harm with h4 | ⟨l2, h5, -⟩
          · exact h1 h4
          · exact h2 (hsub (k, l2) (alookup_mem _ _ _ h5))
        have hkrest : k ∈ keys rest := by
          rcases List.mem_cons.mp hkcons with rfl | hh
          · exact absurd rfl hkk
          · exact hh
        simp only [addPropsGo, if_neg h1, if_neg h2]
        refine ih _ ?_ ⟨k, hkrest, ?_⟩
        · intro kv hkv
          rcases mem_aset_elim _ _ _ _ hkv with h4 | rfl
          · exact isSome_alookup_aset _ _ _ _ (hsub kv h4)
          · rw [alookup_aset_self]; rfl
        · rcases harm with h4 | ⟨l2, h5, h6⟩
          · exact Or.inl h4
          · refine Or.inr ⟨l2, ?_, h6⟩
            rw [alookup_aset_ne st.keyToLoc key k loc (Ne.symm hkk)]
            exact h5

theorem pass1Step_inv (st : ComposeState) (loc : String) (meta : Option JValue)
    (hloc : loc ∈ reservedKeys) (h : StInv st) : StInv (pass1Step st loc meta) := by
  cases meta with
  | none => exact h
  | some s =>
    by_cases ht : jTruthy s = true
    · by_cases hb : loc = "requestBody"
      · subst hb
        simp only [pass1Step, ht, if_true, addProperties, if_pos rfl]
        exact stInv_set_required _ _
          (stInv_aset_reserved { st with nestedLocs := addNested st.nestedLocs "requestBody" }
            "requestBody" _ hloc (addNested_mem_self _ _)
            (stInv_addNested st "requestBody" hloc h))
      · have hresinv := addPropsGo_inv loc hloc hb (getProps s) st h
        cases hres : (addPropsGo loc (getProps s) st).1 with
        | true =>
          simp only [pass1Step, ht, if_true, addProperties, if_neg hb, hres]
          exact stInv_set_required _ _ hresinv
        | false =>
          simp only [pass1Step, ht, if_true, addProperties, if_neg hb, hres, Bool.false_eq_true, if_false]
          exact stInv_set_required _ _
            (stInv_aset_reserved _ loc s hloc
              (addPropsGo_false_nested loc (getProps s) st hres) hresinv)
    · simp only [pass1Step, if_neg ht]
      exact h

theorem pass1Step_props_pres (st : ComposeState) (loc : String)
    (meta : Option JValue) (loc2 : String) (X : JValue) (hne : loc ≠ loc2)
    (hX : alookup st.properties loc2 = some X) :
    alookup (pass1Step st loc meta).properties loc2 = some X := by
  cases meta with
  | none => exact hX
  | some s =>
    by_cases ht : jTruthy s = true
    · have hXs : (alookup st.properties loc2).isSome = true := by rw [hX]; rfl
      by_cases hb : loc = "requestBody"
      · subst hb
        simp only [pass1Step, ht, if_true, addProperties, if_pos rfl]
        rw [alookup_aset_ne st.properties "requestBody" loc2 _ hne]
        exact hX
      · have hpres := addPropsGo_props_pres loc (getProps s) st loc2 hXs
        cases hres : (addPropsGo loc (getProps s) st).1 with
        | true =>
          simp only [pass1Step, ht, if_true, addProperties, if_neg hb, hres]
          rw [hpres]
          exact hX
        | false =>
          simp only [pass1Step, ht, if_true, addProperties, if_neg hb, hres, Bool.false_eq_true, if_false]
          rw [alookup_aset_ne _ loc loc2 _ hne, hpres]
          exact hX
    · simp only [pass1Step, if_neg ht]
      exact hX

theorem pass1Step_required_mono (st : ComposeState) (loc : String)
    (meta : Option JValue) (x : JValue) (h : x ∈ st.required) :
    x ∈ (pass1Step st loc meta).required := by
  cases meta with
  | none => exact h
  | some s =>
    by_cases ht : jTruthy s = true
    · by_cases hb : loc = "requestBody"
      · subst hb
        simp only [pass1Step, ht, if_true, addProperties, if_pos rfl]
        exact List.mem_append_left _ h
      · have hreq := addPropsGo_required loc (getProps s) st
        cases hres : (addPropsGo loc (getProps s) st).1 with
        | true =>
          simp only [pass1Step, ht, if_true, addProperties, if_neg hb, hres]
          exact List.mem_append_left _ (hreq ▸ h)
        | false =>
          simp only [pass1Step, ht, if_true, addProperties, if_neg hb, hres, Bool.false_eq_true, if_false]
          exact List.mem_append_left _ (hreq ▸ h)
    · simp only [pass1Step, if_neg ht]
      exact h

theorem pass1Step_nested_mono (st : ComposeState) (loc : String)
    (meta : Option JValue) (x : String) (h : x ∈ st.nestedLocs) :
    x ∈ (pass1Step st loc meta).nestedLocs := by
  cases meta with
  | none => exact h
  | some s =>
    by_cases ht : jTruthy s = true
    · by_cases hb : loc = "requestBody"
      · subst hb
        simp only [pass1Step, ht, if_true, addProperties, if_pos rfl]
        exact addNested_mem_of_mem _ _ _ h
      · have hmono := addPropsGo_nested_mono loc (getProps s) st x h
        cases hres : (addPropsGo loc (getProps s) st).1 with
        | true =>
          simp only [pass1Step, ht, if_true, addProperties, if_neg hb, hres]
          exact hmono
        | false =>
          simp only [pass1Step, ht, if_true, addProperties, if_neg hb, hres, Bool.false_eq_true, if_false]
          exact hmono
    · simp only [pass1Step, if_neg ht]
      exact h

theorem pass1Step_k2l_elim (st : ComposeState) (loc : String)
    (meta : Option JValue) (kv : String × String)
    (h : kv ∈ (pass1Step st loc meta).keyToLoc) :
    kv ∈ st.keyToLoc ∨ kv.2 = loc := by
  cases meta with
  | none => exact Or.inl h
  | some s =>
    by_cases ht : jTruthy s = true
    · by_cases hb : loc = "requestBody"
      · subst hb
        simp only [pass1Step, ht, if_true, addProperties, if_pos rfl] at h
        exact Or.inl h
      · cases hres : (addPropsGo loc (getProps s) st).1 with
        | true =>
          simp only [pass1Step, ht, if_true, addProperties, if_neg hb, hres] at h
          exact addPropsGo_k2l_elim loc (getProps s) st kv h
        | false =>
          simp only [pass1Step, ht, if_true, addProperties, if_neg hb, hres,
            Bool.false_eq_true, if_false] at h
          exact addPropsGo_k2l_elim loc (getProps s) st kv h
    · simp only [pass1Step, if_neg ht] at h
      exact Or.inl h

theorem pass1_inv :
    ∀ (l : List (String × Option JValue)) (st : ComposeState),
      (∀ p ∈ l, p.1 ∈ reservedKeys) → StInv st → StInv (pass1 l st) := by
  intro l
  induction l with
  | nil => intro st _ h; exact h
  | cons p rest ih =>
    intro st hl h
    show StInv (pass1 rest (pass1Step st p.1 p.2))
    exact ih _ (fun q hq => hl q (List.mem_cons_of_mem _ hq))
      (pass1Step_inv st p.1 p.2 (hl p (by simp)) h)

theorem pass1_props_pres :
    ∀ (l : List (String × Option JValue)) (st : ComposeState)
      (loc2 : String) (X : JValue),
      (∀ p ∈ l, p.1 ≠ loc2) →
      alookup st.properties loc2 = some X →
      alookup (pass1 l st).properties loc2 = some X := by
  intro l
  induction l with
  | nil => intro st loc2 X _ hX; exact hX
  | cons p rest ih =>
    intro st loc2 X hl hX
    show alookup (pass1 rest (pass1Step st p.1 p.2)).properties loc2 = some X
    exact ih _ loc2 X (fun q hq => hl q (List.mem_cons_of_mem _ hq))
      (pass1Step_props_pres st p.1 p.2 loc2 X (hl p (by simp)) hX)

theorem pass1_required_mono :
    ∀ (l : List (String × Option JValue)) (st : ComposeState) (x : JValue),
      x ∈ st.required → x ∈ (pass1 l st).required := by
  intro l
  induction l with
  | nil => intro st x h; exact h
  | cons p rest ih =>
    intro st x h
    exact ih _ x (pass1Step_required_mono st p.1 p.2 x h)

theorem pass1_nested_mono :
    ∀ (l : List (String × Option JValue)) (st : ComposeState) (x : String),
      x ∈ st.nestedLocs → x ∈ (pass1 l st).nestedLocs := by
  intro l
  induction l with
  | nil => intro st x h; exact h
  | cons p rest ih =>
    intro st x h
    exact ih _ x (pass1Step_nested_mono st p.1 p.2 x h)

theorem pass1_k2l_values :
    ∀ (l : List (String × Option JValue)) (st : ComposeState)
      (kv : String × String),
      kv ∈ (pass1 l st).keyToLoc → kv ∈ st.keyToLoc ∨ kv.2 ∈ keys l := by
  intro l
  induction l with
  | nil => intro st kv h; exact Or.inl h
  | cons p rest ih =>
    intro st kv h
    rcases ih (pass1Step st p.1 p.2) kv h with h2 | h2
    · rcases pass1Step_k2l_elim st p.1 p.2 kv h2 with h3 | h3
      · exact Or.inl h3
      · refine Or.inr ?_
        rw [h3]
        exact List.mem_cons_self _ _
    · exact Or.inr (List.mem_cons_of_mem _ h2)

theorem stInv_filter_ks (st : ComposeState) (ks : List String) (h : StInv st) :
    StInv { st with
      properties := st.properties.filter (fun kv => ¬ kv.1 ∈ ks),
      keyToLoc := st.keyToLoc.filter (fun kv => ¬ kv.1 ∈ ks) } := by
  refine ⟨nodup_keys_filter _ _ h.nodupProps, nodup_keys_filter _ _ h.nodupK2L,
    ?_, ?_, ?_, ?_, h.nestedReserved, ?_⟩
  · intro kv hkv
    exact h.k2lNotReserved kv (List.mem_filter.mp hkv).1
  · intro kv hkv
    obtain ⟨hm, hpred⟩ := List.mem_filter.mp hkv
    rw [alookup_filter (fun x => ¬ x ∈ ks) st.properties kv.1, if_pos hpred]
    exact h.k2lInProps kv hm
  · intro kv hkv
    obtain ⟨hm, hpred⟩ := List.mem_filter.mp hkv
    rcases h.propsOwned kv hm with h2 | h2
    · exact Or.inl h2
    · refine Or.inr ?_
      rw [alookup_filter (fun x => ¬ x ∈ ks) st.keyToLoc kv.1, if_pos hpred]
      exact h2
  · intro kv hkv hres
    exact h.propsReservedNested kv (List.mem_filter.mp hkv).1 hres
  · intro kv hkv
    exact h.k2lNotBody kv (List.mem_filter.mp hkv).1

theorem pass2Step_nested_eq (metas : List (String × Option JValue))
    (st : ComposeState) (loc : String) :
    (pass2Step metas st loc).nestedLocs = st.nestedLocs := by
  unfold pass2Step
  by_cases hb : loc = "requestBody"
  · simp [hb]
  · simp only [if_neg hb]
    cases halookup : alookup metas loc with
    | none => rfl
    | some o =>
      cases o with
      | none => rfl
      | some s =>
        by_cases hp : (alookup st.properties loc).isSome = true <;> simp [hp]

theorem pass2Step_required_mono (metas : List (String × Option JValue))
    (st : ComposeState) (loc : String) (x : JValue) (h : x ∈ st.required) :
    x ∈ (pass2Step metas st loc).required := by
  unfold pass2Step
  by_cases hb : loc = "requestBody"
  · simp only [if_pos hb]; exact h
  · simp only [if_neg hb]
    cases halookup : alookup metas loc with
    | none => exact h
    | some o =>
      cases o with
      | none => exact h
      | some s =>
        by_cases hp : (alookup st.properties loc).isSome = true
        · simp only [hp, if_true]
          exact h
        · simp only [hp, Bool.false_eq_true, if_false]
          exact List.mem_append_left _ h

theorem pass2Step_k2l_sub (metas : List (String × Option JValue))
    (st : ComposeState) (loc : String) (kv : String × String)
    (h : kv ∈ (pass2Step metas st loc).keyToLoc) : kv ∈ st.keyToLoc := by
  unfold pass2Step at h
  by_cases hb : loc = "requestBody"
  · simpa [hb] using h
  · simp only [if_neg hb] at h
    cases halookup : alookup metas loc with
    | none => rw [halookup] at h; exact h
    | some o =>
      cases o with
      | none => rw [halookup] at h; exact h
      | some s =>
        rw [halookup] at h
        by_cases hp : (alookup st.properties loc).isSome = true
        · simp only [hp, if_true] at h
          exact (List.mem_filter.mp h).1
        · simp only [hp, Bool.false_eq_true, if_false] at h
          exact (List.mem_filter.mp h).1

theorem pass2Step_props_pres (metas : List (String × Option JValue))
    (st : ComposeState) (loc loc2 : String) (X : JValue)
    (hk2lnr : ∀ kv ∈ st.keyToLoc, ¬ kv.1 ∈ reservedKeys)
    (hloc2R : loc2 ∈ reservedKeys)
    (hX : alookup st.properties loc2 = some X) :
    alookup (pass2Step metas st loc).properties loc2 = some X := by
  unfold pass2Step
  by_cases hb : loc = "requestBody"
  · simp only [if_pos hb]; exact hX
  · simp only [if_neg hb]
    cases halookup : alookup metas loc with
    | none => exact hX
    | some o =>
      cases o with
      | none => exact hX
      | some s =>
        have hks : ∀ ks2 : List String,
            (∀ x ∈ ks2, ¬ x ∈ reservedKeys) → ¬ loc2 ∈ ks2 := by
          intro ks2 hall hin
          exact hall loc2 hin hloc2R
        by_cases hp : (alookup st.properties loc).isSome = true
        · simp only [hp, if_true]
          rw [alookup_filter (fun x =>
            ¬ x ∈ st.keyToLoc.filterMap
              (fun kv => if kv.2 = loc then some kv.1 else none)) st.properties loc2]
          rw [if_pos]
          · exact hX
          · simp only [decide_eq_true_eq]
            intro hin
            obtain ⟨kv, hkv, hkveq⟩ := List.mem_filterMap.mp hin
            by_cases heq : kv.2 = loc
            · simp only [heq, if_true] at hkveq
              injection hkveq with hkveq2
              rw [← hkveq2] at hloc2R
              exact hk2lnr kv hkv hloc2R
            · simp [heq] at hkveq
        · have hne : loc ≠ loc2 := by
            intro hh
            rw [hh, hX] at hp
            exact hp rfl
          simp only [hp, Bool.false_eq_true, if_false]
          rw [alookup_filter (fun x =>
            ¬ x ∈ st.keyToLoc.filterMap
              (fun kv => if kv.2 = loc then some kv.1 else none)) _ loc2]
          rw [if_pos]
          · rw [alookup_aset_ne st.properties loc loc2 s hne]
            exact hX
          · simp only [decide_eq_true_eq]
            intro hin
            obtain ⟨kv, hkv, hkveq⟩ := List.mem_filterMap.mp hin
            by_cases heq : kv.2 = loc
            · simp only [heq, if_true] at hkveq
              injection hkveq with hkveq2
              rw [← hkveq2] at hloc2R
              exact hk2lnr kv hkv hloc2R
            · simp [heq] at hkveq

theorem pass2Step_inv (metas : List (String × Option JValue))
    (st : ComposeState) (loc : String) (hloc : loc ∈ reservedKeys)
    (hnest : loc ∈ st.nestedLocs) (h : StInv st) :
    StInv (pass2Step metas st loc) := by
  unfold pass2Step
  by_cases hb : loc = "requestBody"
  · simp only [if_pos hb]; exact h
  · simp only [if_neg hb]
    cases halookup : alookup metas loc with
    | none => exact h
    | some o =>
      cases o with
      | none => exact h
      | some s =>
        by_cases hp : (alookup st.properties loc).isSome = true
        · simp only [hp, if_true]
          exact stInv_filter_ks st _ h
        · simp only [hp, Bool.false_eq_true, if_false]
          exact stInv_filter_ks _ _
            (stInv_set_required _ _ (stInv_aset_reserved st loc s hloc hnest h))

theorem pass2Step_k2l_none (metas : List (String × Option JValue))
    (st : ComposeState) (loc : String) (s : JValue)
    (hmeta : alookup metas loc = some (some s)) (hnb : loc ≠ "requestBody") :
    ∀ kv ∈ (pass2Step metas st loc).keyToLoc, kv.2 ≠ loc := by
  intro kv hkv heq
  unfold pass2Step at hkv
  rw [if_neg hnb, hmeta] at hkv
  by_cases hp : (alookup st.properties loc).isSome = true
  · simp only [hp, if_true] at hkv
    obtain ⟨hm, hpred⟩ := List.mem_filter.mp hkv
    simp only [decide_eq_true_eq] at hpred
    exact hpred (List.mem_filterMap.mpr ⟨kv, hm, by simp [heq]⟩)
  · simp only [hp, Bool.false_eq_true, if_false] at hkv
    obtain ⟨hm, hpred⟩ := List.mem_filter.mp hkv
    simp only [decide_eq_true_eq] at hpred
    exact hpred (List.mem_filterMap.mpr ⟨kv, hm, by simp [heq]⟩)

theorem pass2_fold_nested_eq (metas : List (String × Option JValue)) :
    ∀ (l : List String) (st : ComposeState),
      (l.foldl (pass2Step metas) st).nestedLocs = st.nestedLocs := by
  intro l
  induction l with
  | nil => intro st; rfl
  | cons x rest ih =>
    intro st
    show (rest.foldl (pass2Step metas) (pass2Step metas st x)).nestedLocs = _
    rw [ih (pass2Step metas st x), pass2Step_nested_eq]

theorem pass2_fold_required_mono (metas : List (String × Option JValue)) :
    ∀ (l : List String) (st : ComposeState) (x : JValue),
      x ∈ st.required → x ∈ (l.foldl (pass2Step metas) st).required := by
  intro l
  induction l with
  | nil => intro st x h; exact h
  | cons y rest ih =>
    intro st x h
    exact ih _ x (pass2Step_required_mono metas st y x h)

theorem pass2_fold_k2l_sub (metas : List (String × Option JValue)) :
    ∀ (l : List String) (st : ComposeState) (kv : String × String),
      kv ∈ (l.foldl (pass2Step metas) st).keyToLoc → kv ∈ st.keyToLoc := by
  intro l
  induction l with
  | nil => intro st kv h; exact h
  | cons y rest ih =>
    intro st kv h
    exact pass2Step_k2l_sub metas st y kv (ih _ kv h)

theorem pass2_fold_inv (metas : List (String × Option JValue)) :
    ∀ (l : List String) (st : ComposeState),
      (∀ x ∈ l, x ∈ reservedKeys ∧ x ∈ st.nestedLocs) → StInv st →
      StInv (l.foldl (pass2Step metas) st) := by
  intro l
  induction l with
  | nil => intro st _ h; exact h
  | cons y rest ih =>
    intro st hl h
    refine ih _ ?_ (pass2Step_inv metas st y (hl y (by simp)).1 (hl y (by simp)).2 h)
    intro x hx
    refine ⟨(hl x (List.mem_cons_of_mem _ hx)).1, ?_⟩
    rw [pass2Step_nested_eq]
    exact (hl x (List.mem_cons_of_mem _ hx)).2

theorem pass2_fold_props_pres (metas : List (String × Option JValue)) :
    ∀ (l : List String) (st : ComposeState) (loc2 : String) (X : JValue),
      StInv st → (∀ x ∈ l, x ∈ reservedKeys ∧ x ∈ st.nestedLocs) →
      loc2 ∈ reservedKeys → alookup st.properties loc2 = some X →
      alookup (l.foldl (pass2Step metas) st).properties loc2 = some X := by
  intro l
  induction l with
  | nil => intro st loc2 X _ _ _ hX; exact hX
  | cons y rest ih =>
    intro st loc2 X hinv hl hloc2R hX
    refine ih _ loc2 X
      (pass2Step_inv metas st y (hl y (by simp)).1 (hl y (by simp)).2 hinv) ?_ hloc2R
      (pass2Step_props_pres metas st y loc2 X
        (fun kv hm => hinv.k2lNotReserved kv hm) hloc2R hX)
    intro x hx
    refine ⟨(hl x (List.mem_cons_of_mem _ hx)).1, ?_⟩
    rw [pass2Step_nested_eq]
    exact (hl x (List.mem_cons_of_mem _ hx)).2

theorem pass2_fold_k2l_none (metas : List (String × Option JValue))
    (loc : String) (s : JValue) (hmeta : alookup metas loc = some (some s))
    (hnb : loc ≠ "requestBody") :
    ∀ (l : List String) (st : ComposeState), loc ∈ l →
      ∀ kv ∈ (l.foldl (pass2Step metas) st).keyToLoc, kv.2 ≠ loc := by
  intro l
  induction l with
  | nil =>
    intro st h
    exact absurd h (List.not_mem_nil loc)
  | cons y rest ih =>
    intro st hmem kv hkv
    by_cases hy : y = loc
    · subst hy
      have hsub := pass2_fold_k2l_sub metas rest (pass2Step metas st y) kv hkv
      exact pass2Step_k2l_none metas st y s hmeta hnb kv hsub
    · rcases List.mem_cons.mp hmem with rfl | hmem2
      · exact absurd rfl hy
      · exact ih (pass2Step metas st y) hmem2 kv hkv

theorem stInv_init : StInv initState := by
  refine ⟨?_, ?_, ?_, ?_, ?_, ?_, ?_, ?_⟩ <;> simp [initState, keys]

theorem metaList_reserved (m : LocMetas) : ∀ p ∈ metaList m, p.1 ∈ reservedKeys := by
  intro p hp
  simp only [metaList, List.mem_cons, List.not_mem_nil, or_false] at hp
  rcases hp with rfl | rfl | rfl | rfl | rfl <;> simp [reservedKeys]

theorem analyzeMetas_inv (m : LocMetas) : StInv (analyzeMetas m) := by
  have h1 := pass1_inv (metaList m) initState (metaList_reserved m) stInv_init
  unfold analyzeMetas
  exact pass2_fold_inv (metaList m) _ _ (fun x hx => ⟨h1.nestedReserved x hx, hx⟩) h1

/-- C1: for every operation, the composed schema's property keys form a
disjoint partition across locations: property names are duplicate-free, the
key-location map is duplicate-free and claims only non-reserved property
keys, and every property key is owned by exactly one location — either a
flattened key recorded in the key-location map, or the reserved key of a
nested location, never both. -/
theorem c1_partition : ∀ m : LocMetas, partitionOk (analyzeMetas m) = true := by
  intro m
  have h := analyzeMetas_inv m
  unfold partitionOk
  simp only [Bool.and_eq_true]
  refine ⟨⟨⟨(nodupB_iff _).mpr h.nodupProps, (nodupB_iff _).mpr h.nodupK2L⟩, ?_⟩, ?_⟩
  · rw [List.all_eq_true]
    intro kv hkv
    by_cases hres : kv.1 ∈ reservedKeys
    · have hnested := h.propsReservedNested kv hkv hres
      have hnotk2l : ¬ kv.1 ∈ keys (analyzeMetas m).keyToLoc := by
        intro hin
        obtain ⟨kv2, hkv2, hkv2eq⟩ := List.mem_map.mp hin
        exact h.k2lNotReserved kv2 hkv2 (hkv2eq ▸ hres)
      simp only [keys] at hnotk2l
      simp [hres, hnested, hnotk2l, List.contains, List.elem_iff, keys]
    · have howned : (alookup (analyzeMetas m).keyToLoc kv.1).isSome = true := by
        rcases h.propsOwned kv hkv with h2 | h2
        · exact absurd h2 hres
        · exact h2
      have hmemk : kv.1 ∈ keys (analyzeMetas m).keyToLoc :=
        (alookup_isSome_iff _ _).mp howned
      simp only [keys] at hmemk
      simp [hres, hmemk, List.contains, List.elem_iff, keys]
  · rw [List.all_eq_true]
    intro kv hkv
    have hmem : kv.1 ∈ keys (analyzeMetas m).properties :=
      (alookup_isSome_iff _ _).mp (h.k2lInProps kv hkv)
    simp only [keys] at hmem
    simp [hmem, List.contains, List.elem_iff, keys]

theorem pass1_append (l1 l2 : List (String × Option JValue)) (st : ComposeState) :
    pass1 (l1 ++ l2) st = pass1 l2 (pass1 l1 st) := by
  unfold pass1
  rw [List.foldl_append]

theorem composer_nests (pre post : List (String × Option JValue)) (loc : String)
    (s : JValue)
    (hpreR : ∀ p ∈ pre, p.1 ∈ reservedKeys)
    (hpostR : ∀ p ∈ post, p.1 ∈ reservedKeys)
    (hpostNe : ∀ p ∈ post, p.1 ≠ loc)
    (hlocR : loc ∈ reservedKeys) (hnb : loc ≠ "requestBody")
    (ht : jTruthy s = true)
    (hmetaLookup : alookup (pre ++ (loc, some s) :: post) loc = some (some s))
    (hcol : ∃ k, k ∈ keys (getProps s) ∧ (k ∈ reservedKeys ∨
      ∃ l2, alookup (pass1 pre initState).keyToLoc k = some l2 ∧ l2 ≠ loc)) :
    loc ∈ (composeAll (pre ++ (loc, some s) :: post)).nestedLocs ∧
    alookup (composeAll (pre ++ (loc, some s) :: post)).properties loc = some s ∧
    JValue.str loc ∈ (composeAll (pre ++ (loc, some s) :: post)).required ∧
    ∀ kv ∈ (composeAll (pre ++ (loc, some s) :: post)).keyToLoc, kv.2 ≠ loc := by
  have hst0inv : StInv (pass1 pre initState) :=
    pass1_inv pre initState hpreR stInv_init
  have hfalse : (addPropsGo loc (getProps s) (pass1 pre initState)).1 = false :=
    addPropsGo_false_of_collision loc (getProps s) (pass1 pre initState)
      (fun kv hkv => hst0inv.k2lInProps kv hkv) hcol
  have hstep : pass1Step (pass1 pre initState) loc (some s) =
      { (addPropsGo loc (getProps s) (pass1 pre initState)).2 with
        properties :=
          aset (addPropsGo loc (getProps s) (pass1 pre initState)).2.properties loc s
        required :=
          (addPropsGo loc (getProps s) (pass1 pre initState)).2.required ++
            [JValue.str loc] } := by
    simp only [pass1Step, ht, if_true, addProperties, if_neg hnb, hfalse,
      Bool.false_eq_true, if_false]
  have hst1inv : StInv (pass1Step (pass1 pre initState) loc (some s)) :=
    pass1Step_inv _ loc (some s) hlocR hst0inv
  have hst1props :
      alookup (pass1Step (pass1 pre initState) loc (some s)).properties loc = some s := by
    rw [hstep]
    exact alookup_aset_self _ loc s
  have hst1req :
      JValue.str loc ∈ (pass1Step (pass1 pre initState) loc (some s)).required := by
    rw [hstep]
    exact List.mem_append_right _ (by simp)
  have hst1nested :
      loc ∈ (pass1Step (pass1 pre initState) loc (some s)).nestedLocs := by
    rw [hstep]
    exact addPropsGo_false_nested loc (getProps s) _ hfalse
  have hpass1 : pass1 (pre ++ (loc, some s) :: post) initState =
      pass1 post (pass1Step (pass1 pre initState) loc (some s)) := by
    rw [pass1_append]
    rfl
  have hallR : ∀ p ∈ pre ++ (loc, some s) :: post, p.1 ∈ reservedKeys := by
    intro p hp
    rcases List.mem_append.mp hp with hp2 | hp2
    · exact hpreR p hp2
    · rcases List.mem_cons.mp hp2 with rfl | hp3
      · exact hlocR
      · exact hpostR p hp3
  have hstPinv : StInv (pass1 (pre ++ (loc, some s) :: post) initState) :=
    pass1_inv _ initState hallR stInv_init
  have hstPprops :
      alookup (pass1 (pre ++ (loc, some s) :: post) initState).properties loc
        = some s := by
    rw [hpass1]
    exact pass1_props_pres post _ loc s hpostNe hst1props
  have hstPreq :
      JValue.str loc ∈ (pass1 (pre ++ (loc, some s) :: post) initState).required := by
    rw [hpass1]
    exact pass1_required_mono post _ _ hst1req
  have hstPnested :
      loc ∈ (pass1 (pre ++ (loc, some s) :: post) initState).nestedLocs := by
    rw [hpass1]
    exact pass1_nested_mono post _ _ hst1nested
  refine ⟨?_, ?_, ?_, ?_⟩
  · show loc ∈ ((pass1 (pre ++ (loc, some s) :: post) initState).nestedLocs.foldl
      (pass2Step (pre ++ (loc, some s) :: post))
      (pass1 (pre ++ (loc, some s) :: post) initState)).nestedLocs
    rw [pass2_fold_nested_eq]
    exact hstPnested
  · exact pass2_fold_props_pres _ _ _ loc s hstPinv
      (fun x hx => ⟨hstPinv.nestedReserved x hx, hx⟩) hlocR hstPprops
  · exact pass2_fold_required_mono _ _ _ _ hstPreq
  · exact pass2_fold_k2l_none _ loc s hmetaLookup hnb _ _ hstPnested

/-- C2: locations are composed in the fixed order path, query, header,
cookie, body; whenever one of a (non-body) location's property keys is a
reserved location key or is already claimed by a different location at the
time the location is processed, the entire location is nested: the final
schema maps the location's reserved key to its whole schema fragment, the
reserved key is required, and no key of the final key-location map belongs
to that location (its partially flattened keys are retracted from both
`properties` and the map by the nested pass). -/
theorem c2_collision_nesting (m : LocMetas) (loc : String) (s : JValue)
    (hloc : loc ∈ ["requestPath", "requestQuery", "requestHeader", "requestCookie"])
    (hmeta : alookup (metaList m) loc = some (some s))
    (ht : jTruthy s = true)
    (hcol : ∃ k, k ∈ keys (getProps s) ∧ (k ∈ reservedKeys ∨
      ∃ l2, alookup (stBefore m loc).keyToLoc k = some l2 ∧ l2 ≠ loc)) :
    loc ∈ (analyzeMetas m).nestedLocs ∧
    alookup (analyzeMetas m).properties loc = some s ∧
    JValue.str loc ∈ (analyzeMetas m).required ∧
    ∀ kv ∈ (analyzeMetas m).keyToLoc, kv.2 ≠ loc := by
  simp only [List.mem_cons, List.not_mem_nil, or_false] at hloc
  rcases hloc with rfl | rfl | rfl | rfl
  · have hms0 : (some m.pathMeta : Option (Option JValue)) = some (some s) := hmeta
    have hms : m.pathMeta = some s := Option.some.inj hms0
    have hml : metaList m = [] ++ ("requestPath", some s) ::
        [("requestQuery", m.queryMeta), ("requestHeader", m.headerMeta),
         ("requestCookie", m.cookieMeta), ("requestBody", m.bodyMeta)] := by
      simp [metaList, hms]
    have hsb : stBefore m "requestPath" = pass1 [] initState := rfl
    rw [hsb] at hcol
    have ha : analyzeMetas m = composeAll ([] ++ ("requestPath", some s) ::
        [("requestQuery", m.queryMeta), ("requestHeader", m.headerMeta),
         ("requestCookie", m.cookieMeta), ("requestBody", m.bodyMeta)]) := by
      rw [show analyzeMetas m = composeAll (metaList m) from rfl, hml]
    rw [ha]
    refine composer_nests _ _ "requestPath" s ?_ ?_ ?_ (by decide) (by decide) ht rfl hcol
    · intro p hp
      exact absurd hp (List.not_mem_nil p)
    · intro p hp
      fin_cases hp <;> simp [reservedKeys]
    · intro p hp
      fin_cases hp <;> simp [reservedKeys]
  · have hms0 : (some m.queryMeta : Option (Option JValue)) = some (some s) := hmeta
    have hms : m.queryMeta = some s := Option.some.inj hms0
    have hml : metaList m = [("requestPath", m.pathMeta)] ++ ("requestQuery", some s) ::
        [("requestHeader", m.headerMeta), ("requestCookie", m.cookieMeta),
         ("requestBody", m.bodyMeta)] := by
      simp [metaList, hms]
    have hsb : stBefore m "requestQuery" = pass1 [("requestPath", m.pathMeta)] initState := rfl
    rw [hsb] at hcol
    have ha : analyzeMetas m = composeAll ([("requestPath", m.pathMeta)] ++
        ("requestQuery", some s) :: [("requestHeader", m.headerMeta),
         ("requestCookie", m.cookieMeta), ("requestBody", m.bodyMeta)]) := by
      rw [show analyzeMetas m = composeAll (metaList m) from rfl, hml]
    rw [ha]
    refine composer_nests _ _ "requestQuery" s ?_ ?_ ?_ (by decide) (by decide) ht rfl hcol
    · intro p hp
      fin_cases hp <;> simp [reservedKeys]
    · intro p hp
      fin_cases hp <;> simp [reservedKeys]
    · intro p hp
      fin_cases hp <;> simp [reservedKeys]
  · have hms0 : (some m.headerMeta : Option (Option JValue)) = some (some s) := hmeta
    have hms : m.headerMeta = some s := Option.some.inj hms0
    have hml : metaList m = [("requestPath", m.pathMeta), ("requestQuery", m.queryMeta)] ++
        ("requestHeader", some s) ::
        [("requestCookie", m.cookieMeta), ("requestBody", m.bodyMeta)] := by
      simp [metaList, hms]
    have hsb : stBefore m "requestHeader" =
        pass1 [("requestPath", m.pathMeta), ("requestQuery", m.queryMeta)] initState := rfl
    rw [hsb] at hcol
    have ha : analyzeMetas m = composeAll
        ([("requestPath", m.pathMeta), ("requestQuery", m.queryMeta)] ++
         ("requestHeader", some s) ::
         [("requestCookie", m.cookieMeta), ("requestBody", m.bodyMeta)]) := by
      rw [show analyzeMetas m = composeAll (metaList m) from rfl, hml]
    rw [ha]
    refine composer_nests _ _ "requestHeader" s ?_ ?_ ?_ (by decide) (by decide) ht rfl hcol
    · intro p hp
      fin_cases hp <;> simp [reservedKeys]
    · intro p hp
      fin_cases hp <;> simp [reservedKeys]
    · intro p hp
      fin_cases hp <;> simp [reservedKeys]
  · have hms0 : (some m.cookieMeta : Option (Option JValue)) = some (some s) := hmeta
    have hms : m.cookieMeta = some s := Option.some.inj hms0
    have hml : metaList m = [("requestPath", m.pathMeta), ("requestQuery", m.queryMeta),
        ("requestHeader", m.headerMeta)] ++ ("requestCookie", some s) ::
        [("requestBody", m.bodyMeta)] := by
      simp [metaList, hms]
    have hsb : stBefore m "requestCookie" =
        pass1 [("requestPath", m.pathMeta), ("requestQuery", m.queryMeta),
          ("requestHeader", m.headerMeta)] initState := rfl
    rw [hsb] at hcol
    have ha : analyzeMetas m = composeAll
        ([("requestPath", m.pathMeta), ("requestQuery", m.queryMeta),
          ("requestHeader", m.headerMeta)] ++ ("requestCookie", some s) ::
         [("requestBody", m.bodyMeta)]) := by
      rw [show analyzeMetas m = composeAll (metaList m) from rfl, hml]
    rw [ha]
    refine composer_nests _ _ "requestCookie" s ?_ ?_ ?_ (by decide) (by decide) ht rfl hcol
    · intro p hp
      fin_cases hp <;> simp [reservedKeys]
    · intro p hp
      fin_cases hp <;> simp [reservedKeys]
    · intro p hp
      fin_cases hp <;> simp [reservedKeys]

/-- C2 witness: the collision scenario where the query location reuses the
key `id` already claimed by the path location, so the query location is
nested under `requestQuery`, made required, and owns no flattened key. -/
theorem c2_collision_nesting_witness :
    "requestQuery" ∈ (analyzeMetas mColl).nestedLocs ∧
    alookup (analyzeMetas mColl).properties "requestQuery" =
      some (.obj [("properties", .obj [("id", .obj [])])]) ∧
    JValue.str "requestQuery" ∈ (analyzeMetas mColl).required ∧
    ∀ kv ∈ (analyzeMetas mColl).keyToLoc, kv.2 ≠ "requestQuery" :=
  c2_collision_nesting mColl "requestQuery"
    (.obj [("properties", .obj [("id", .obj [])])])
    (by decide) rfl rfl
    ⟨"id", by decide, Or.inr ⟨"requestPath", rfl, by decide⟩⟩

/-- C3: whenever the body location declares a truthy schema fragment, the
composed schema maps `requestBody` to the nested object wrapper around the
fragment's properties, `requestBody` is required, and no flattened key of
the key-location map ever belongs to the body location, regardless of the
body sub-property names. -/
theorem c3_body_nested (m : LocMetas) (s : JValue) (hbody : m.bodyMeta = some s)
    (ht : jTruthy s = true) :
    alookup (analyzeMetas m).properties "requestBody" =
      some (.obj [("type", .str "object"), ("properties", .obj (getProps s))]) ∧
    JValue.str "requestBody" ∈ (analyzeMetas m).required ∧
    ∀ kv ∈ (analyzeMetas m).keyToLoc, kv.2 ≠ "requestBody" := by
  have hml : metaList m =
      [("requestPath", m.pathMeta), ("requestQuery", m.queryMeta),
       ("requestHeader", m.headerMeta), ("requestCookie", m.cookieMeta)] ++
      [("requestBody", some s)] := by
    simp [metaList, hbody]
  have hsplit : pass1 (metaList m) initState =
      pass1Step (pass1 [("requestPath", m.pathMeta), ("requestQuery", m.queryMeta),
        ("requestHeader", m.headerMeta), ("requestCookie", m.cookieMeta)] initState)
        "requestBody" (some s) := by
    rw [hml, pass1_append]
    rfl
  have hPinv : StInv (pass1 (metaList m) initState) :=
    pass1_inv _ initState (metaList_reserved m) stInv_init
  have hBprops : alookup (pass1 (metaList m) initState).properties "requestBody" =
      some (.obj [("type", .str "object"), ("properties", .obj (getProps s))]) := by
    rw [hsplit]
    simp only [pass1Step, ht, if_true, addProperties, if_pos rfl]
    exact alookup_aset_self _ _ _
  have hBreq : JValue.str "requestBody" ∈ (pass1 (metaList m) initState).required := by
    rw [hsplit]
    simp only [pass1Step, ht, if_true, addProperties, if_pos rfl]
    exact List.mem_append_right _ (by simp)
  refine ⟨?_, ?_, ?_⟩
  · exact pass2_fold_props_pres _ _ _ "requestBody" _ hPinv
      (fun x hx => ⟨hPinv.nestedReserved x hx, hx⟩) (by decide) hBprops
  · exact pass2_fold_required_mono _ _ _ _ hBreq
  · intro kv hkv
    exact hPinv.k2lNotBody kv (pass2_fold_k2l_sub _ _ _ kv hkv)

/-- C3 witness: a body whose sub-properties include the name of a reserved
location key is still wrapped (never flattened), required, and owns no
flattened key. -/
theorem c3_body_nested_witness :
    alookup (analyzeMetas mBody).properties "requestBody" =
      some (.obj [("type", .str "object"),
        ("properties", .obj [("name", .obj []), ("requestPath", .obj [])])]) ∧
    JValue.str "requestBody" ∈ (analyzeMetas mBody).required ∧
    ∀ kv ∈ (analyzeMetas mBody).keyToLoc, kv.2 ≠ "requestBody" :=
  c3_body_nested mBody
    (.obj [("properties", .obj [("name", .obj []), ("requestPath", .obj [])])])
    rfl rfl
